import Mathlib

/-!
Verification of the SimpleSwap constant-product AMM
(`src/contracts/contracts/SimpleSwap.sol`).

The contract is shallowly embedded: `uint256` values become `Nat` with
explicit `< 2^256` guards where Solidity 0.8 checked arithmetic would
revert with `Panic(0x11)` / `Panic(0x12)`, and the explicit `uint112(...)`
conversions in the source become `% 2^112` truncation (`wrap112`), exactly
as Solidity explicit downcasts truncate.  Each `require(_, "msg")` in the
source becomes an `Err` constructor named after its revert string.
Reverting operations return `Except.error`, which models the all-or-nothing
rollback of the EVM: a reverted call leaves the caller's state untouched.
-/

/-- `2^112`, one more than `type(uint112).max`. -/
def U112 : Nat := 2 ^ 112

/-- `2^256`, one more than `type(uint256).max`. -/
def U256 : Nat := 2 ^ 256

/-- Truncating conversion `uint112(x)` applied to a `uint256` value
(Solidity explicit downcasts keep the low 112 bits). -/
def wrap112 (x : Nat) : Nat := x % U112

/-- Revert reasons of `SimpleSwap.sol`.  Constructors are named after the
revert strings of the source (`"SS:IZA"` ↦ `IZA`, …); `PanicOverflow` and
`PanicDivZero` are Solidity 0.8's `Panic(0x11)` (checked-arithmetic
overflow/underflow) and `Panic(0x12)` (division by zero). -/
inductive Err where
  | IZA | IR | INA | INB | EXP | IA | IL | ILM | ILB | ITL | IOA | RNI
  | OVERFLOW
  | PanicOverflow
  | PanicDivZero
  deriving DecidableEq, Repr

/-- Externally observable effects of one call, in the order the source
performs them: `stateWrite` is an assignment to contract storage
(reserves, total liquidity, a share balance), `tokenTransfer` is an
external ERC20 `transferFrom`/`transfer` call. -/
inductive Event where
  | stateWrite
  | tokenTransfer
  deriving DecidableEq, Repr

/-- The `Pool` struct of the source: canonical reserves and the total
liquidity-share supply, all stored as `uint112`. -/
structure Pool where
  reserveA : Nat
  reserveB : Nat
  totalLiquidity : Nat
  deriving DecidableEq, Repr

/-- Contract storage: `pools[t0][t1]` and `liquidity[t0][t1][user]`,
with token addresses and users modelled as `Nat` (the zero address is `0`,
address comparison is `Nat` order). -/
structure State where
  pools : Nat → Nat → Pool
  liquidity : Nat → Nat → Nat → Nat

/-- Point update of the pool map. -/
def setPool (f : Nat → Nat → Pool) (x y : Nat) (p : Pool) : Nat → Nat → Pool :=
  fun a b => if a = x ∧ b = y then p else f a b

/-- Point update of the share-balance map. -/
def setLiq (f : Nat → Nat → Nat → Nat) (x y u v : Nat) : Nat → Nat → Nat → Nat :=
  fun a b w => if a = x ∧ b = y ∧ w = u then v else f a b w

/-- The all-empty initial state: every pool record is implicitly created
zero-valued, every share balance is `0`. -/
def initialState : State := ⟨fun _ _ => ⟨0, 0, 0⟩, fun _ _ _ => 0⟩

/-- `sortTokens` (source lines 543-547): order the pair, reverting
`"SS:IA"` on equal tokens and `"SS:IZA"` when the smaller one is the zero
address. -/
def sortTokens (tokenA tokenB : Nat) : Except Err (Nat × Nat) :=
  if tokenA = tokenB then .error .IA
  else if (if tokenA < tokenB then tokenA else tokenB) = 0 then .error .IZA
  else .ok (if tokenA < tokenB then tokenA else tokenB,
            if tokenA < tokenB then tokenB else tokenA)

/-- Loop of `sqrt` (source lines 521-527), Babylonian iteration
`while (x < z) { z = x; x = (y / x + x) / 2; }`.  The loop variable `z`
strictly decreases, so any `fuel ≥ z` suffices; `fuel` is structural so
that the definition evaluates by kernel reduction. -/
def sqrtGo (y : Nat) : Nat → Nat → Nat → Nat
  | 0, z, _ => z
  | fuel + 1, z, x => if x < z then sqrtGo y fuel x ((y / x + x) / 2) else z

/-- `sqrt` (source lines 520-531): Babylonian integer square root,
returning `0` for `0` and `1` for `1 ≤ y ≤ 3`. -/
def sqrt (y : Nat) : Nat :=
  if 3 < y then sqrtGo y y y (y / 2 + 1)
  else if y ≠ 0 then 1 else 0

/-- `getAmountOut` (source lines 477-487).  Checked `uint256` arithmetic:
each intermediate product/sum reverts with `Panic(0x11)` when it does not
fit below `2^256`, exactly as Solidity 0.8 does. -/
def getAmountOut (amountIn reserveIn reserveOut : Nat) : Except Err Nat :=
  if amountIn = 0 then .error .INA
  else if reserveIn = 0 ∨ reserveOut = 0 then .error .IL
  else if ¬ amountIn * 997 < U256 then .error .PanicOverflow
  else if ¬ amountIn * 997 * reserveOut < U256 then .error .PanicOverflow
  else if ¬ reserveIn * 1000 < U256 then .error .PanicOverflow
  else if ¬ reserveIn * 1000 + amountIn * 997 < U256 then .error .PanicOverflow
  else .ok (amountIn * 997 * reserveOut / (reserveIn * 1000 + amountIn * 997))

/-- Amount selection of `_addLiquidity` (source lines 335-352): bootstrap
case takes the desired amounts (re-oriented to canonical order), the
proportional case computes the optimal counterpart amounts with the
source's checked multiplications and truncating divisions. -/
def computeAmounts (tokenA t0 r0 r1 aDes bDes aMin bMin : Nat) : Except Err (Nat × Nat) :=
  if r0 = 0 ∧ r1 = 0 then
    .ok (if tokenA = t0 then (aDes, bDes) else (bDes, aDes))
  else if ¬ aDes * r1 < U256 then .error .PanicOverflow
  else if r0 = 0 then .error .PanicDivZero
  else if aDes * r1 / r0 ≤ bDes then
    if aDes * r1 / r0 < bMin then .error .INB else .ok (aDes, aDes * r1 / r0)
  else if ¬ bDes * r0 < U256 then .error .PanicOverflow
  else if r1 = 0 then .error .PanicDivZero
  else if aDes < bDes * r0 / r1 then .error .INA
  else if bDes * r0 / r1 < aMin then .error .INA
  else .ok (bDes * r0 / r1, bDes)

/-- Share-mint computation of `_addLiquidity` (source lines 359-370):
geometric mean on first deposit, proportional minimum otherwise, reverting
`"SS:ILM"` when the result is zero. -/
def computeMinted (tL r0 r1 a0 a1 : Nat) : Except Err Nat :=
  if tL = 0 then
    if ¬ a0 * a1 < U256 then .error .PanicOverflow
    else if sqrt (a0 * a1) = 0 then .error .ILM
    else .ok (sqrt (a0 * a1))
  else
    if ¬ a0 * tL < U256 then .error .PanicOverflow
    else if r0 = 0 then .error .PanicDivZero
    else if ¬ a1 * tL < U256 then .error .PanicOverflow
    else if r1 = 0 then .error .PanicDivZero
    else if (if a0 * tL / r0 < a1 * tL / r1 then a0 * tL / r0 else a1 * tL / r1) = 0 then
      .error .ILM
    else .ok (if a0 * tL / r0 < a1 * tL / r1 then a0 * tL / r0 else a1 * tL / r1)

/-- State commit of `_addLiquidity` (source lines 372-382): the reserve and
total-liquidity stores go through the *unchecked* `uint112(...)` casts of
the source (silent truncation via `wrap112`), while the `+=` on the
holder's `uint112` share balance is checked and reverts on overflow.
Returns the new state, the event trace of the whole call (the two
`safeTransferFrom`s of lines 355-356 precede the four stores), and the
amounts re-mapped to the caller's token order plus the minted shares. -/
def commitAdd (s : State) (t0 t1 tokenA dst r0 r1 tL a0 a1 m : Nat) :
    Except Err (State × List Event × Nat × Nat × Nat) :=
  if ¬ r0 + a0 < U256 then .error .PanicOverflow
  else if ¬ r1 + a1 < U256 then .error .PanicOverflow
  else if ¬ tL + m < U256 then .error .PanicOverflow
  else if ¬ s.liquidity t0 t1 dst + wrap112 m < U112 then .error .PanicOverflow
  else
    .ok (⟨setPool s.pools t0 t1 ⟨wrap112 (r0 + a0), wrap112 (r1 + a1), wrap112 (tL + m)⟩,
          setLiq s.liquidity t0 t1 dst (s.liquidity t0 t1 dst + wrap112 m)⟩,
         [.tokenTransfer, .tokenTransfer, .stateWrite, .stateWrite, .stateWrite, .stateWrite],
         (if tokenA = t0 then a0 else a1), (if tokenA = t0 then a1 else a0), m)

/-- `addLiquidity` (source lines 160-187) composed with `_addLiquidity`
(source lines 315-385): entry requires in source order, then token
sorting, amount selection, the two inbound transfers, share minting and
the final state commit.  `now` is `block.timestamp`. -/
def addLiquidityE (s : State) (tokenA tokenB aDes bDes aMin bMin dst deadline now : Nat) :
    Except Err (State × List Event × Nat × Nat × Nat) :=
  if tokenA = 0 ∨ tokenB = 0 then .error .IZA
  else if dst = 0 then .error .IR
  else if aDes = 0 ∨ bDes = 0 then .error .INA
  else if deadline < now then .error .EXP
  else if tokenA = tokenB then .error .IA
  else
    match sortTokens tokenA tokenB with
    | .error e => .error e
    | .ok (t0, t1) =>
      match computeAmounts tokenA t0 (s.pools t0 t1).reserveA (s.pools t0 t1).reserveB
          aDes bDes aMin bMin with
      | .error e => .error e
      | .ok (a0, a1) =>
        match computeMinted (s.pools t0 t1).totalLiquidity (s.pools t0 t1).reserveA
            (s.pools t0 t1).reserveB a0 a1 with
        | .error e => .error e
        | .ok m =>
          commitAdd s t0 t1 tokenA dst (s.pools t0 t1).reserveA (s.pools t0 t1).reserveB
            (s.pools t0 t1).totalLiquidity a0 a1 m

/-- State commit and payout of `_removeLiquidity` (source lines 423-436):
the four storage writes (values already validated not to underflow),
followed by the two outbound transfers, returning the amounts re-mapped to
the caller's token order. -/
def commitRemove (s : State) (t0 t1 tokenA sender L a0 a1 : Nat) :
    Except Err (State × List Event × Nat × Nat) :=
  .ok (⟨setPool s.pools t0 t1
          ⟨wrap112 ((s.pools t0 t1).reserveA - a0),
           wrap112 ((s.pools t0 t1).reserveB - a1),
           wrap112 ((s.pools t0 t1).totalLiquidity - L)⟩,
        setLiq s.liquidity t0 t1 sender (s.liquidity t0 t1 sender - wrap112 L)⟩,
       [.stateWrite, .stateWrite, .stateWrite, .stateWrite,
        .tokenTransfer, .tokenTransfer],
       (if tokenA = t0 then a0 else a1), (if tokenA = t0 then a1 else a0))

/-- `removeLiquidity` (source lines 209-234) composed with
`_removeLiquidity` (source lines 400-437): proportional withdrawal with
floor division, minimum-amount checks, then the four storage writes
(checked `uint112` subtractions) followed by the two outbound transfers.
`sender` is `msg.sender`. -/
def removeLiquidityE (s : State) (sender tokenA tokenB liquidityAmt aMin bMin dst deadline now : Nat) :
    Except Err (State × List Event × Nat × Nat) :=
  if tokenA = 0 ∨ tokenB = 0 then .error .IZA
  else if dst = 0 then .error .IR
  else if liquidityAmt = 0 then .error .IL
  else if deadline < now then .error .EXP
  else
    match sortTokens tokenA tokenB with
    | .error e => .error e
    | .ok (t0, t1) =>
      if (s.pools t0 t1).totalLiquidity = 0 then .error .ITL
      else if s.liquidity t0 t1 sender < liquidityAmt then .error .ILB
      else if ¬ liquidityAmt * (s.pools t0 t1).reserveA < U256 then .error .PanicOverflow
      else if ¬ liquidityAmt * (s.pools t0 t1).reserveB < U256 then .error .PanicOverflow
      else if liquidityAmt * (s.pools t0 t1).reserveA / (s.pools t0 t1).totalLiquidity < aMin then
        .error .INA
      else if liquidityAmt * (s.pools t0 t1).reserveB / (s.pools t0 t1).totalLiquidity < bMin then
        .error .INB
      else if (s.pools t0 t1).reserveA
          < liquidityAmt * (s.pools t0 t1).reserveA / (s.pools t0 t1).totalLiquidity then
        .error .PanicOverflow
      else if (s.pools t0 t1).reserveB
          < liquidityAmt * (s.pools t0 t1).reserveB / (s.pools t0 t1).totalLiquidity then
        .error .PanicOverflow
      else if (s.pools t0 t1).totalLiquidity < liquidityAmt then .error .PanicOverflow
      else if s.liquidity t0 t1 sender < wrap112 liquidityAmt then .error .PanicOverflow
      else
        commitRemove s t0 t1 tokenA sender liquidityAmt
          (liquidityAmt * (s.pools t0 t1).reserveA / (s.pools t0 t1).totalLiquidity)
          (liquidityAmt * (s.pools t0 t1).reserveB / (s.pools t0 t1).totalLiquidity)

/-- `getReserves` (source lines 449-463): reverts `"SS:RNI"` unless both
canonical reserves are positive, then returns them oriented to the
caller's token order. -/
def getReservesE (s : State) (tokenA tokenB : Nat) : Except Err (Nat × Nat) :=
  match sortTokens tokenA tokenB with
  | .error e => .error e
  | .ok (t0, t1) =>
    if (s.pools t0 t1).reserveA = 0 ∨ (s.pools t0 t1).reserveB = 0 then .error .RNI
    else .ok (if tokenA = t0 then ((s.pools t0 t1).reserveA, (s.pools t0 t1).reserveB)
              else ((s.pools t0 t1).reserveB, (s.pools t0 t1).reserveA))

/-- `_update` (source lines 560-577): the only checked reserve commit —
reverts `"SS:OVERFLOW"` unless both new reserves fit `uint112`, then
stores them re-oriented to canonical order. -/
def updateE (s : State) (tokenA tokenB reserveA reserveB : Nat) : Except Err State :=
  match sortTokens tokenA tokenB with
  | .error e => .error e
  | .ok (t0, t1) =>
    if ¬ (reserveA ≤ U112 - 1 ∧ reserveB ≤ U112 - 1) then .error .OVERFLOW
    else
      .ok ⟨setPool s.pools t0 t1
             ⟨wrap112 (if tokenA = t0 then reserveA else reserveB),
              wrap112 (if tokenA = t0 then reserveB else reserveA),
              (s.pools t0 t1).totalLiquidity⟩,
           s.liquidity⟩

/-- `swapExactTokensForTokens` (source lines 253-282) with
`path = [tokenIn, tokenOut]`: entry requires, reserve read, output
computation, slippage check, the checked reserve arithmetic of line 272,
the `_update` commit and finally the two external transfers.  Returns the
new state, the event trace, and `amounts = (amountIn, amountOut)`. -/
def swapE (s : State) (amountIn amountOutMin tokenIn tokenOut dst deadline now : Nat) :
    Except Err (State × List Event × Nat × Nat) :=
  if dst = 0 then .error .IR
  else if tokenIn = tokenOut then .error .IA
  else if amountIn = 0 then .error .INA
  else if deadline < now then .error .EXP
  else
    match getReservesE s tokenIn tokenOut with
    | .error e => .error e
    | .ok (reserveIn, reserveOut) =>
      match getAmountOut amountIn reserveIn reserveOut with
      | .error e => .error e
      | .ok amountOut =>
        if amountOut < amountOutMin then .error .IOA
        else if ¬ reserveIn + amountIn < U256 then .error .PanicOverflow
        else if reserveOut < amountOut then .error .PanicOverflow
        else
          match updateE s tokenIn tokenOut (reserveIn + amountIn) (reserveOut - amountOut) with
          | .error e => .error e
          | .ok s' =>
            .ok (s', [.stateWrite, .stateWrite, .tokenTransfer, .tokenTransfer],
                 amountIn, amountOut)

/-- `getPrice` (source lines 497-510): `reserve * 1e18 / reserve` oriented
to the caller's order, reverting `"SS:RNI"` on an uninitialized pool. -/
def getPriceE (s : State) (tokenA tokenB : Nat) : Except Err Nat :=
  match sortTokens tokenA tokenB with
  | .error e => .error e
  | .ok (t0, t1) =>
    if (s.pools t0 t1).reserveA = 0 ∨ (s.pools t0 t1).reserveB = 0 then .error .RNI
    else if tokenA = t0 then
      if ¬ (s.pools t0 t1).reserveB * 10 ^ 18 < U256 then .error .PanicOverflow
      else .ok ((s.pools t0 t1).reserveB * 10 ^ 18 / (s.pools t0 t1).reserveA)
    else
      if ¬ (s.pools t0 t1).reserveA * 10 ^ 18 < U256 then .error .PanicOverflow
      else .ok ((s.pools t0 t1).reserveA * 10 ^ 18 / (s.pools t0 t1).reserveB)

/-- Error projection of a call result (`none` on success); lets concrete
revert reasons be read off results whose success payload contains a
`State`. -/
def errOf {a : Type} (x : Except Err a) : Option Err :=
  match x with
  | .error e => some e
  | .ok _ => none

instance {α : Type} [DecidableEq α] : DecidableEq (Except Err α) := fun a b =>
  match a, b with
  | .error e, .error f => if h : e = f then isTrue (by rw [h]) else isFalse (by simp [h])
  | .ok x, .ok y => if h : x = y then isTrue (by rw [h]) else isFalse (by simp [h])
  | .error _, .ok _ => isFalse (by simp)
  | .ok _, .error _ => isFalse (by simp)

/-- `true` iff every storage write in the trace happens before every
external token transfer (the reentrancy-safe commit-then-transfer order). -/
def commitsBeforeTransfersB : List Event → Bool
  | [] => true
  | .stateWrite :: r => commitsBeforeTransfersB r
  | .tokenTransfer :: r => r.all (fun e => e == .tokenTransfer)

/-- The two spec invariants of one pool record:
`reserve0 = 0 ↔ reserve1 = 0` and `totalShares = 0 ↔ both reserves = 0`. -/
def PairInv (p : Pool) : Prop :=
  (p.reserveA = 0 ↔ p.reserveB = 0) ∧
  (p.totalLiquidity = 0 ↔ p.reserveA = 0 ∧ p.reserveB = 0)

/-- The invariant holds for every pool of the state. -/
def PoolsInv (s : State) : Prop := ∀ t0 t1, PairInv (s.pools t0 t1)

/-- All stored pool fields fit `uint112` (maintained by construction in the
contract, where the fields have type `uint112`). -/
def WFpools (s : State) : Prop :=
  ∀ t0 t1, (s.pools t0 t1).reserveA < U112 ∧ (s.pools t0 t1).reserveB < U112 ∧
    (s.pools t0 t1).totalLiquidity < U112

/-- States reachable from the all-empty initial state by arbitrary
successful `addLiquidity`, `removeLiquidity` and `swapExactTokensForTokens`
calls. -/
inductive Reachable : State → Prop where
  | init : Reachable initialState
  | add (s : State) (tA tB aDes bDes aMin bMin dst dl now : Nat)
      (s' : State) (tr : List Event) (rA rB lm : Nat) :
      Reachable s →
      addLiquidityE s tA tB aDes bDes aMin bMin dst dl now = .ok (s', tr, rA, rB, lm) →
      Reachable s'
  | remove (s : State) (sender tA tB L aMin bMin dst dl now : Nat)
      (s' : State) (tr : List Event) (rA rB : Nat) :
      Reachable s →
      removeLiquidityE s sender tA tB L aMin bMin dst dl now = .ok (s', tr, rA, rB) →
      Reachable s'
  | swap (s : State) (aIn outMin tIn tOut dst dl now : Nat)
      (s' : State) (tr : List Event) (x1 x2 : Nat) :
      Reachable s →
      swapE s aIn outMin tIn tOut dst dl now = .ok (s', tr, x1, x2) →
      Reachable s'

/-- Reachability restricted to deposits whose committed reserve and
total-share sums stay below `2^112`, i.e. deposits on which the unchecked
`uint112` casts of `_addLiquidity` (source lines 373-375) do not truncate.
`rA`/`rB` are the call's returned amounts in caller order; re-oriented to
canonical order they are the committed deposit amounts. -/
inductive ReachableB : State → Prop where
  | init : ReachableB initialState
  | add (s : State) (tA tB aDes bDes aMin bMin dst dl now : Nat)
      (s' : State) (tr : List Event) (rA rB lm : Nat) :
      ReachableB s →
      addLiquidityE s tA tB aDes bDes aMin bMin dst dl now = .ok (s', tr, rA, rB, lm) →
      (s.pools (min tA tB) (max tA tB)).reserveA + (if tA < tB then rA else rB) < U112 →
      (s.pools (min tA tB) (max tA tB)).reserveB + (if tA < tB then rB else rA) < U112 →
      (s.pools (min tA tB) (max tA tB)).totalLiquidity + lm < U112 →
      ReachableB s'
  | remove (s : State) (sender tA tB L aMin bMin dst dl now : Nat)
      (s' : State) (tr : List Event) (rA rB : Nat) :
      ReachableB s →
      removeLiquidityE s sender tA tB L aMin bMin dst dl now = .ok (s', tr, rA, rB) →
      ReachableB s'
  | swap (s : State) (aIn outMin tIn tOut dst dl now : Nat)
      (s' : State) (tr : List Event) (x1 x2 : Nat) :
      ReachableB s →
      swapE s aIn outMin tIn tOut dst dl now = .ok (s', tr, x1, x2) →
      ReachableB s'

/-- A concrete funded state: pool `(1,2)` holds reserves `(1000, 2000)`
with `100` total shares, all owned by user `3`. -/
def demoState : State :=
  ⟨fun a b => if a = 1 ∧ b = 2 then ⟨1000, 2000, 100⟩ else ⟨0, 0, 0⟩,
   fun a b u => if a = 1 ∧ b = 2 ∧ u = 3 then 100 else 0⟩

/-! ## Basic facts about the embedding -/

lemma errOf_eq {a : Type} {x : Except Err a} {e : Err} (h : errOf x = some e) :
    x = .error e := by
  cases x
  · simp [errOf] at h; simp [h]
  · simp [errOf] at h

lemma sortTokens_eq (tA tB : Nat) (hne : tA ≠ tB) (h0 : 0 < min tA tB) :
    sortTokens tA tB = .ok (min tA tB, max tA tB) := by
  have hmin : min tA tB = if tA < tB then tA else tB := by
    rw [Nat.min_def]; split <;> split <;> omega
  have hmax : max tA tB = if tA < tB then tB else tA := by
    rw [Nat.max_def]; split <;> split <;> omega
  unfold sortTokens
  rw [if_neg hne, hmin, hmax]
  rw [if_neg (by rw [← hmin]; omega)]

/-! ## Correctness of the Babylonian square root -/

lemma newton_ge_sqrt (y x : Nat) (hx : 0 < x) : Nat.sqrt y ≤ (y / x + x) / 2 := by
  have hss : Nat.sqrt y * Nat.sqrt y ≤ y := Nat.sqrt_le y
  have key : 2 * Nat.sqrt y ≤ y / x + x := by
    rcases le_or_lt (2 * Nat.sqrt y) x with h | h
    · exact Nat.le_trans h (Nat.le_add_left x (y / x))
    · have hle : x ≤ 2 * Nat.sqrt y := Nat.le_of_lt h
      have h1 : (2 * Nat.sqrt y - x) * x ≤ Nat.sqrt y * Nat.sqrt y := by
        zify [hle]
        nlinarith [sq_nonneg ((Nat.sqrt y : ℤ) - x)]
      have h2 : 2 * Nat.sqrt y - x ≤ y / x :=
        (Nat.le_div_iff_mul_le hx).mpr (Nat.le_trans h1 hss)
      obtain ⟨q, hq⟩ : ∃ q, y / x = q := ⟨_, rfl⟩
      rw [hq] at h2 ⊢
      omega
  obtain ⟨q, hq⟩ : ∃ q, y / x = q := ⟨_, rfl⟩
  rw [hq] at key ⊢
  omega

lemma sqrtGo_eq (y : Nat) (hy : 3 < y) :
    ∀ fuel z x, z ≤ fuel → 0 < x → Nat.sqrt y ≤ z → Nat.sqrt y ≤ x →
      (z ≤ x → z * z ≤ y) → sqrtGo y fuel z x = Nat.sqrt y := by
  intro fuel
  induction fuel with
  | zero =>
    intro z x hzf hx hsz hsx hzx
    have h2 : 2 ≤ Nat.sqrt y := Nat.le_sqrt.mpr (by omega)
    exact absurd hsz (by omega)
  | succ fuel ih =>
    intro z x hzf hx hsz hsx hzx
    show (if x < z then sqrtGo y fuel x ((y / x + x) / 2) else z) = Nat.sqrt y
    split
    · next hlt =>
      have h2 : 2 ≤ Nat.sqrt y := Nat.le_sqrt.mpr (by omega)
      have hnewton := newton_ge_sqrt y x hx
      refine ih x ((y / x + x) / 2) (by omega)
        (Nat.lt_of_lt_of_le (by omega) hnewton) hsx hnewton ?_
      intro hle
      have hxy : x ≤ y / x := by
        obtain ⟨q, hq⟩ : ∃ q, y / x = q := ⟨_, rfl⟩
        rw [hq] at hle ⊢
        omega
      exact (Nat.le_div_iff_mul_le hx).mp hxy
    · next hge =>
      have hz2 : z * z ≤ y := hzx (Nat.le_of_not_lt hge)
      have : z ≤ Nat.sqrt y := Nat.le_sqrt.mpr hz2
      omega

/-- The source's Babylonian `sqrt` computes the integer square root. -/
lemma sqrt_eq_natSqrt (y : Nat) : sqrt y = Nat.sqrt y := by
  unfold sqrt
  split
  · next hy =>
    have hss : Nat.sqrt y * Nat.sqrt y ≤ y := Nat.sqrt_le y
    have hub : Nat.sqrt y ≤ y / 2 + 1 := by
      rcases le_or_lt (Nat.sqrt y) 1 with h | h
      · omega
      · have h2s : 2 * Nat.sqrt y ≤ Nat.sqrt y * Nat.sqrt y :=
          Nat.mul_le_mul h (Nat.le_refl _)
        omega
    refine sqrtGo_eq y hy y y (y / 2 + 1) (Nat.le_refl y) (by omega)
      (Nat.sqrt_le_self y) hub ?_
    intro hle
    exact absurd hle (by omega)
  · next hy =>
    have hy3 : y = 0 ∨ y = 1 ∨ y = 2 ∨ y = 3 := by omega
    have s2 : Nat.sqrt 2 = 1 := ((Nat.eq_sqrt.mpr (by omega)).symm : Nat.sqrt 2 = 1)
    have s3 : Nat.sqrt 3 = 1 := ((Nat.eq_sqrt.mpr (by omega)).symm : Nat.sqrt 3 = 1)
    rcases hy3 with rfl | rfl | rfl | rfl <;> simp [s2, s3]

/-! ## Arithmetic facts about `getAmountOut` -/

lemma getAmountOut_eq (a ri ro : Nat) (ha : 0 < a) (hri : 0 < ri) (hro : 0 < ro)
    (h1 : a * 997 * ro < U256) (h2 : ri * 1000 + a * 997 < U256) :
    getAmountOut a ri ro = .ok (a * 997 * ro / (ri * 1000 + a * 997)) := by
  have g1 : a * 997 ≤ a * 997 * ro := Nat.le_mul_of_pos_right _ hro
  unfold getAmountOut
  rw [if_neg (by omega), if_neg (by omega), if_neg (by omega), if_neg (by omega),
    if_neg (by omega), if_neg (by omega)]

lemma getAmountOut_ok_inv {a ri ro out : Nat} (h : getAmountOut a ri ro = .ok out) :
    0 < a ∧ 0 < ri ∧ 0 < ro ∧ out = a * 997 * ro / (ri * 1000 + a * 997) := by
  unfold getAmountOut at h
  split at h
  · exact absurd h (by simp)
  next ha =>
  split at h
  · exact absurd h (by simp)
  next hrz =>
  split at h
  · exact absurd h (by simp)
  split at h
  · exact absurd h (by simp)
  split at h
  · exact absurd h (by simp)
  split at h
  · exact absurd h (by simp)
  injection h with h
  exact ⟨by omega, by omega, by omega, h.symm⟩

lemma amountOut_lt {a ri ro out : Nat} (h : getAmountOut a ri ro = .ok out) :
    out < ro := by
  obtain ⟨ha, hri, hro, hout⟩ := getAmountOut_ok_inv h
  subst hout
  rw [Nat.div_lt_iff_lt_mul (by omega : 0 < ri * 1000 + a * 997)]
  have hpos : 0 < ro * (ri * 1000) := by positivity
  nlinarith

lemma k_increase {a ri ro out : Nat} (h : getAmountOut a ri ro = .ok out) :
    ri * ro < (ri + a) * (ro - out) := by
  obtain ⟨ha, hri, hro, hout⟩ := getAmountOut_ok_inv h
  have hlt : out < ro := amountOut_lt h
  have hdle : out * (ri * 1000 + a * 997) ≤ a * 997 * ro := by
    rw [hout]; exact Nat.div_mul_le_self _ _
  have key : (ri + a) * out < a * ro := by
    rcases Nat.eq_zero_or_pos out with h0 | hpos
    · subst h0; simpa using Nat.mul_pos ha hro
    · have h997 : 997 * ((ri + a) * out) < 997 * (a * ro) := by
        have hlt2 : (997 * ri + 997 * a) * out < (ri * 1000 + a * 997) * out := by
          have : 997 * ri + 997 * a < ri * 1000 + a * 997 := by omega
          exact Nat.mul_lt_mul_of_lt_of_le this (Nat.le_refl out) hpos
        calc 997 * ((ri + a) * out) = (997 * ri + 997 * a) * out := by ring
          _ < (ri * 1000 + a * 997) * out := hlt2
          _ = out * (ri * 1000 + a * 997) := by ring
          _ ≤ a * 997 * ro := hdle
          _ = 997 * (a * ro) := by ring
      exact Nat.lt_of_mul_lt_mul_left h997
  have hco : (ri + a) * (ro - out) + (ri + a) * out = (ri + a) * ro := by
    rw [← Nat.mul_add, Nat.sub_add_cancel (Nat.le_of_lt hlt)]
  have hexp : (ri + a) * ro = ri * ro + a * ro := by ring
  linarith

/-! ## Helper facts about `wrap112` -/

lemma U112_pos : 0 < U112 := by unfold U112; positivity

lemma wrap112_lt (x : Nat) : wrap112 x < U112 := Nat.mod_lt _ U112_pos

lemma wrap112_eq_of_lt {x : Nat} (h : x < U112) : wrap112 x = x := Nat.mod_eq_of_lt h

lemma wrap112_le (x : Nat) : wrap112 x ≤ x := Nat.mod_le _ _

/-! ## Forward characterization of a bootstrap deposit -/

/-- A successful first deposit: on an empty pool with a zero holder
balance, `addLiquidity` succeeds, mints `⌊√(amount0·amount1)⌋` shares and
commits the (truncated) reserve sums, with the two `transferFrom`s
happening before the four state writes. -/
lemma add_boot (s : State) (tA tB aDes bDes aMin bMin dst dl now : Nat)
    (hne : tA ≠ tB) (h0 : 0 < min tA tB) (hdst : dst ≠ 0)
    (ha : 0 < aDes) (hb : 0 < bDes) (hdl : now ≤ dl)
    (hpool : s.pools (min tA tB) (max tA tB) = ⟨0, 0, 0⟩)
    (huser : s.liquidity (min tA tB) (max tA tB) dst = 0)
    (hprod : aDes * bDes < U256) :
    addLiquidityE s tA tB aDes bDes aMin bMin dst dl now =
      .ok (⟨setPool s.pools (min tA tB) (max tA tB)
              ⟨wrap112 (if tA < tB then aDes else bDes),
               wrap112 (if tA < tB then bDes else aDes),
               wrap112 (Nat.sqrt (aDes * bDes))⟩,
            setLiq s.liquidity (min tA tB) (max tA tB) dst
              (wrap112 (Nat.sqrt (aDes * bDes)))⟩,
           [.tokenTransfer, .tokenTransfer, .stateWrite, .stateWrite,
            .stateWrite, .stateWrite],
           aDes, bDes, Nat.sqrt (aDes * bDes)) := by
  have htA0 : tA ≠ 0 := by omega
  have htB0 : tB ≠ 0 := by omega
  have hnlt : ¬ dl < now := by omega
  have hprod' : bDes * aDes < U256 := by rwa [Nat.mul_comm]
  have haU : aDes < U256 := Nat.lt_of_le_of_lt (Nat.le_mul_of_pos_right _ hb) hprod
  have hbU : bDes < U256 := Nat.lt_of_le_of_lt (Nat.le_mul_of_pos_left _ ha) hprod
  have hmU : Nat.sqrt (aDes * bDes) < U256 :=
    Nat.lt_of_le_of_lt (Nat.sqrt_le_self _) hprod
  have hm0 : Nat.sqrt (aDes * bDes) ≠ 0 :=
    Nat.pos_iff_ne_zero.mp (Nat.sqrt_pos.mpr (Nat.mul_pos ha hb))
  have hwlt : wrap112 (Nat.sqrt (aDes * bDes)) < U112 := wrap112_lt _
  by_cases htab : tA < tB
  · have hmin : min tA tB = tA := Nat.min_eq_left (Nat.le_of_lt htab)
    have hmax : max tA tB = tB := Nat.max_eq_right (Nat.le_of_lt htab)
    rw [hmin, hmax] at hpool huser ⊢
    simp only [addLiquidityE, sortTokens_eq tA tB hne h0, hmin, hmax, hpool, huser,
      computeAmounts, computeMinted, commitAdd, sqrt_eq_natSqrt]
    simp [htA0, htB0, hdst, ha.ne', hb.ne', hnlt, hne, htab, hprod, hm0, haU, hbU,
      hmU, hwlt]
  · have hba : tB < tA := by omega
    have hmin : min tA tB = tB := Nat.min_eq_right (Nat.le_of_lt hba)
    have hmax : max tA tB = tA := Nat.max_eq_left (Nat.le_of_lt hba)
    have htne : ¬ tA = tB := hne
    rw [hmin, hmax] at hpool huser ⊢
    simp only [addLiquidityE, sortTokens_eq tA tB hne h0, hmin, hmax, hpool, huser,
      computeAmounts, computeMinted, commitAdd, sqrt_eq_natSqrt]
    simp [htA0, htB0, hdst, ha.ne', hb.ne', hnlt, htne, htab, hprod', hm0, haU, hbU,
      hmU, hwlt, Nat.mul_comm bDes aDes, Nat.not_le.mpr hprod, Nat.not_le.mpr hmU,
      Nat.not_le.mpr hwlt]

/-! ## Forward characterization of a successful withdrawal -/

/-- A successful `removeLiquidity`: proportional amounts with floor
division are paid out, reserves/total shares/holder balance are
decremented, and the four state writes precede the two transfers. -/
lemma remove_forward (s : State) (sender tA tB L aMin bMin dst dl now r0 r1 tL userL : Nat)
    (hne : tA ≠ tB) (h0 : 0 < min tA tB) (hdst : dst ≠ 0) (hL : 0 < L) (hdl : now ≤ dl)
    (hpool : s.pools (min tA tB) (max tA tB) = ⟨r0, r1, tL⟩)
    (huser : s.liquidity (min tA tB) (max tA tB) sender = userL)
    (htL : 0 < tL) (huL : L ≤ userL)
    (hg0 : L * r0 < U256) (hg1 : L * r1 < U256)
    (hmin0 : aMin ≤ L * r0 / tL) (hmin1 : bMin ≤ L * r1 / tL)
    (hsub0 : L * r0 / tL ≤ r0) (hsub1 : L * r1 / tL ≤ r1) (hsubL : L ≤ tL)
    (hw : wrap112 L ≤ userL) :
    removeLiquidityE s sender tA tB L aMin bMin dst dl now =
      .ok (⟨setPool s.pools (min tA tB) (max tA tB)
              ⟨wrap112 (r0 - L * r0 / tL), wrap112 (r1 - L * r1 / tL), wrap112 (tL - L)⟩,
            setLiq s.liquidity (min tA tB) (max tA tB) sender (userL - wrap112 L)⟩,
           [.stateWrite, .stateWrite, .stateWrite, .stateWrite,
            .tokenTransfer, .tokenTransfer],
           (if tA < tB then L * r0 / tL else L * r1 / tL),
           (if tA < tB then L * r1 / tL else L * r0 / tL)) := by
  have htA0 : tA ≠ 0 := by omega
  have htB0 : tB ≠ 0 := by omega
  have hnlt : ¬ dl < now := by omega
  have hf1 := Nat.not_lt.mpr hmin0
  have hf2 := Nat.not_lt.mpr hmin1
  have hf3 := Nat.not_lt.mpr hsub0
  have hf4 := Nat.not_lt.mpr hsub1
  have hf5 := Nat.not_lt.mpr hsubL
  have hf6 := Nat.not_lt.mpr hw
  have hf7 := Nat.not_lt.mpr huL
  by_cases htab : tA < tB
  · have hmin : min tA tB = tA := Nat.min_eq_left (Nat.le_of_lt htab)
    have hmax : max tA tB = tB := Nat.max_eq_right (Nat.le_of_lt htab)
    rw [hmin, hmax] at hpool huser ⊢
    simp only [removeLiquidityE, commitRemove, sortTokens_eq tA tB hne h0, hmin, hmax, hpool, huser]
    simp [htA0, htB0, hdst, hL.ne', hnlt, htL.ne', htab, hg0, hg1,
      hf1, hf2, hf3, hf4, hf5, hf6, hf7]
  · have hba : tB < tA := by omega
    have hmin : min tA tB = tB := Nat.min_eq_right (Nat.le_of_lt hba)
    have hmax : max tA tB = tA := Nat.max_eq_left (Nat.le_of_lt hba)
    have htne : ¬ tA = tB := hne
    rw [hmin, hmax] at hpool huser ⊢
    simp only [removeLiquidityE, commitRemove, sortTokens_eq tA tB hne h0, hmin, hmax, hpool, huser]
    simp [htA0, htB0, hdst, hL.ne', hnlt, htL.ne', htab, htne, hg0, hg1,
      hf1, hf2, hf3, hf4, hf5, hf6, hf7]

/-! ## Success inversion of the operations -/

lemma sortTokens_ok {tA tB t0 t1 : Nat} (h : sortTokens tA tB = .ok (t0, t1)) :
    tA ≠ tB ∧ 0 < min tA tB ∧ t0 = min tA tB ∧ t1 = max tA tB := by
  by_cases hne : tA = tB
  · rw [sortTokens, if_pos hne] at h
    exact absurd h (by simp)
  rcases Nat.lt_or_ge tA tB with hl | hl
  · rw [sortTokens, if_neg hne, if_pos hl, if_pos hl] at h
    split at h
    · exact absurd h (by simp)
    next h0 =>
    simp only [Except.ok.injEq, Prod.mk.injEq] at h
    exact ⟨hne, by omega, by omega, by omega⟩
  · have hl' : ¬ tA < tB := by omega
    rw [sortTokens, if_neg hne, if_neg hl', if_neg hl'] at h
    split at h
    · exact absurd h (by simp)
    next h0 =>
    simp only [Except.ok.injEq, Prod.mk.injEq] at h
    exact ⟨hne, by omega, by omega, by omega⟩

lemma computeAmounts_ok {tokenA t0 r0 r1 aDes bDes aMin bMin a0 a1 : Nat}
    (h : computeAmounts tokenA t0 r0 r1 aDes bDes aMin bMin = .ok (a0, a1)) :
    (r0 = 0 ∧ r1 = 0 ∧ ((a0 = aDes ∧ a1 = bDes) ∨ (a0 = bDes ∧ a1 = aDes))) ∨
    ¬ (r0 = 0 ∧ r1 = 0) := by
  unfold computeAmounts at h
  split at h
  · next hc =>
    left
    refine ⟨hc.1, hc.2, ?_⟩
    split at h
    · injection h with h
      injection h with h1 h2
      exact Or.inl ⟨h1.symm, h2.symm⟩
    · injection h with h
      injection h with h1 h2
      exact Or.inr ⟨h1.symm, h2.symm⟩
  · next hc => exact Or.inr hc

lemma computeMinted_ok {tL r0 r1 a0 a1 m : Nat} (h : computeMinted tL r0 r1 a0 a1 = .ok m) :
    0 < m ∧ (tL = 0 → m = Nat.sqrt (a0 * a1)) := by
  unfold computeMinted at h
  split_ifs at h
  all_goals simp only [Except.ok.injEq, reduceCtorEq] at h
  · subst h; exact ⟨Nat.pos_of_ne_zero (by assumption), fun _ => sqrt_eq_natSqrt _⟩
  all_goals subst h
  all_goals exact ⟨Nat.pos_of_ne_zero (by assumption), fun h0 => absurd h0 (by omega)⟩

lemma commitAdd_ok {s : State} {t0 t1 tokenA dst r0 r1 tL a0 a1 m : Nat}
    {s' : State} {tr : List Event} {rA rB lm : Nat}
    (h : commitAdd s t0 t1 tokenA dst r0 r1 tL a0 a1 m = .ok (s', tr, rA, rB, lm)) :
    lm = m ∧ rA = (if tokenA = t0 then a0 else a1) ∧
    rB = (if tokenA = t0 then a1 else a0) ∧
    tr = [.tokenTransfer, .tokenTransfer, .stateWrite, .stateWrite,
          .stateWrite, .stateWrite] ∧
    r0 + a0 < U256 ∧ r1 + a1 < U256 ∧ tL + m < U256 ∧
    s.liquidity t0 t1 dst + wrap112 m < U112 ∧
    s' = ⟨setPool s.pools t0 t1 ⟨wrap112 (r0 + a0), wrap112 (r1 + a1), wrap112 (tL + m)⟩,
          setLiq s.liquidity t0 t1 dst (s.liquidity t0 t1 dst + wrap112 m)⟩ := by
  unfold commitAdd at h
  split at h
  · exact absurd h (by simp)
  next hb0 =>
  split at h
  · exact absurd h (by simp)
  next hb1 =>
  split at h
  · exact absurd h (by simp)
  next hb2 =>
  split at h
  · exact absurd h (by simp)
  next hb3 =>
  simp only [Except.ok.injEq, Prod.mk.injEq] at h
  obtain ⟨hs, htr, hrA, hrB, hlm⟩ := h
  exact ⟨hlm.symm, hrA.symm, hrB.symm, htr.symm, by omega, by omega, by omega,
    by omega, hs.symm⟩

/-- Inversion of a successful `addLiquidity` call: the entry requires
passed, amount selection and share minting succeeded, the four `uint256`
commit additions fit, and the new state is the (possibly truncating)
commit of the computed sums. -/
lemma add_ok {s : State} {tA tB aDes bDes aMin bMin dst dl now : Nat}
    {s' : State} {tr : List Event} {rA rB lm : Nat}
    (h : addLiquidityE s tA tB aDes bDes aMin bMin dst dl now = .ok (s', tr, rA, rB, lm)) :
    ∃ a0 a1,
      tA ≠ tB ∧ 0 < min tA tB ∧ dst ≠ 0 ∧ 0 < aDes ∧ 0 < bDes ∧ now ≤ dl ∧
      computeAmounts tA (min tA tB) (s.pools (min tA tB) (max tA tB)).reserveA
        (s.pools (min tA tB) (max tA tB)).reserveB aDes bDes aMin bMin = .ok (a0, a1) ∧
      computeMinted (s.pools (min tA tB) (max tA tB)).totalLiquidity
        (s.pools (min tA tB) (max tA tB)).reserveA
        (s.pools (min tA tB) (max tA tB)).reserveB a0 a1 = .ok lm ∧
      rA = (if tA < tB then a0 else a1) ∧ rB = (if tA < tB then a1 else a0) ∧
      tr = [.tokenTransfer, .tokenTransfer, .stateWrite, .stateWrite,
            .stateWrite, .stateWrite] ∧
      (s.pools (min tA tB) (max tA tB)).reserveA + a0 < U256 ∧
      (s.pools (min tA tB) (max tA tB)).reserveB + a1 < U256 ∧
      (s.pools (min tA tB) (max tA tB)).totalLiquidity + lm < U256 ∧
      s.liquidity (min tA tB) (max tA tB) dst + wrap112 lm < U112 ∧
      s' = ⟨setPool s.pools (min tA tB) (max tA tB)
              ⟨wrap112 ((s.pools (min tA tB) (max tA tB)).reserveA + a0),
               wrap112 ((s.pools (min tA tB) (max tA tB)).reserveB + a1),
               wrap112 ((s.pools (min tA tB) (max tA tB)).totalLiquidity + lm)⟩,
            setLiq s.liquidity (min tA tB) (max tA tB) dst
              (s.liquidity (min tA tB) (max tA tB) dst + wrap112 lm)⟩ := by
  unfold addLiquidityE at h
  split at h
  · exact absurd h (by simp)
  next hc1 =>
  split at h
  · exact absurd h (by simp)
  next hc2 =>
  split at h
  · exact absurd h (by simp)
  next hc3 =>
  split at h
  · exact absurd h (by simp)
  next hc4 =>
  split at h
  · exact absurd h (by simp)
  next hc5 =>
  split at h
  · exact absurd h (by simp)
  next t0 t1 heqSort =>
  obtain ⟨hne, h0, ht0, ht1⟩ := sortTokens_ok heqSort
  subst ht0
  subst ht1
  split at h
  · exact absurd h (by simp)
  next a0 a1 heqAmt =>
  split at h
  · exact absurd h (by simp)
  next m heqMint =>
  obtain ⟨hlm, hrA, hrB, htr, hb0, hb1, hb2, hb3, hs'⟩ := commitAdd_ok h
  subst hlm
  refine ⟨a0, a1, hne, h0, by omega, by omega, by omega, by omega, heqAmt, heqMint,
    ?_, ?_, htr, hb0, hb1, hb2, hb3, hs'⟩
  · rw [hrA]
    by_cases htab : tA < tB
    · rw [if_pos (show tA = min tA tB by omega), if_pos htab]
    · rw [if_neg (show ¬ tA = min tA tB by omega), if_neg htab]
  · rw [hrB]
    by_cases htab : tA < tB
    · rw [if_pos (show tA = min tA tB by omega), if_pos htab]
    · rw [if_neg (show ¬ tA = min tA tB by omega), if_neg htab]

/-- Inversion of a successful `removeLiquidity` call. -/
lemma remove_ok {s : State} {sender tA tB L aMin bMin dst dl now : Nat}
    {s' : State} {tr : List Event} {rA rB : Nat}
    (h : removeLiquidityE s sender tA tB L aMin bMin dst dl now = .ok (s', tr, rA, rB)) :
    tA ≠ tB ∧ 0 < min tA tB ∧ 0 < L ∧
    0 < (s.pools (min tA tB) (max tA tB)).totalLiquidity ∧
    L ≤ s.liquidity (min tA tB) (max tA tB) sender ∧
    L ≤ (s.pools (min tA tB) (max tA tB)).totalLiquidity ∧
    L * (s.pools (min tA tB) (max tA tB)).reserveA
        / (s.pools (min tA tB) (max tA tB)).totalLiquidity
      ≤ (s.pools (min tA tB) (max tA tB)).reserveA ∧
    L * (s.pools (min tA tB) (max tA tB)).reserveB
        / (s.pools (min tA tB) (max tA tB)).totalLiquidity
      ≤ (s.pools (min tA tB) (max tA tB)).reserveB ∧
    tr = [.stateWrite, .stateWrite, .stateWrite, .stateWrite,
          .tokenTransfer, .tokenTransfer] ∧
    s' = ⟨setPool s.pools (min tA tB) (max tA tB)
            ⟨wrap112 ((s.pools (min tA tB) (max tA tB)).reserveA
                - L * (s.pools (min tA tB) (max tA tB)).reserveA
                    / (s.pools (min tA tB) (max tA tB)).totalLiquidity),
             wrap112 ((s.pools (min tA tB) (max tA tB)).reserveB
                - L * (s.pools (min tA tB) (max tA tB)).reserveB
                    / (s.pools (min tA tB) (max tA tB)).totalLiquidity),
             wrap112 ((s.pools (min tA tB) (max tA tB)).totalLiquidity - L)⟩,
          setLiq s.liquidity (min tA tB) (max tA tB) sender
            (s.liquidity (min tA tB) (max tA tB) sender - wrap112 L)⟩ := by
  unfold removeLiquidityE at h
  by_cases hc1 : tA = 0 ∨ tB = 0
  · rw [if_pos hc1] at h; exact absurd h (by simp)
  rw [if_neg hc1] at h
  by_cases hc2 : dst = 0
  · rw [if_pos hc2] at h; exact absurd h (by simp)
  rw [if_neg hc2] at h
  by_cases hc3 : L = 0
  · rw [if_pos hc3] at h; exact absurd h (by simp)
  rw [if_neg hc3] at h
  by_cases hc4 : dl < now
  · rw [if_pos hc4] at h; exact absurd h (by simp)
  rw [if_neg hc4] at h
  cases hst : sortTokens tA tB with
  | error e => rw [hst] at h; exact absurd h (by simp)
  | ok p =>
    obtain ⟨t0, t1⟩ := p
    obtain ⟨hne, h0, ht0, ht1⟩ := sortTokens_ok hst
    subst ht0
    subst ht1
    rw [hst] at h
    simp only [] at h
    by_cases hg1 : (s.pools (min tA tB) (max tA tB)).totalLiquidity = 0
    · rw [if_pos hg1] at h; exact absurd h (by simp)
    rw [if_neg hg1] at h
    by_cases hg2 : s.liquidity (min tA tB) (max tA tB) sender < L
    · rw [if_pos hg2] at h; exact absurd h (by simp)
    rw [if_neg hg2] at h
    by_cases hg3 : L * (s.pools (min tA tB) (max tA tB)).reserveA < U256
    · rw [if_neg (not_not_intro hg3)] at h
      by_cases hg4 : L * (s.pools (min tA tB) (max tA tB)).reserveB < U256
      · rw [if_neg (not_not_intro hg4)] at h
        by_cases hg5 : L * (s.pools (min tA tB) (max tA tB)).reserveA
            / (s.pools (min tA tB) (max tA tB)).totalLiquidity < aMin
        · rw [if_pos hg5] at h; exact absurd h (by simp)
        rw [if_neg hg5] at h
        by_cases hg6 : L * (s.pools (min tA tB) (max tA tB)).reserveB
            / (s.pools (min tA tB) (max tA tB)).totalLiquidity < bMin
        · rw [if_pos hg6] at h; exact absurd h (by simp)
        rw [if_neg hg6] at h
        by_cases hg7 : (s.pools (min tA tB) (max tA tB)).reserveA
            < L * (s.pools (min tA tB) (max tA tB)).reserveA
                / (s.pools (min tA tB) (max tA tB)).totalLiquidity
        · rw [if_pos hg7] at h; exact absurd h (by simp)
        rw [if_neg hg7] at h
        by_cases hg8 : (s.pools (min tA tB) (max tA tB)).reserveB
            < L * (s.pools (min tA tB) (max tA tB)).reserveB
                / (s.pools (min tA tB) (max tA tB)).totalLiquidity
        · rw [if_pos hg8] at h; exact absurd h (by simp)
        rw [if_neg hg8] at h
        by_cases hg9 : (s.pools (min tA tB) (max tA tB)).totalLiquidity < L
        · rw [if_pos hg9] at h; exact absurd h (by simp)
        rw [if_neg hg9] at h
        by_cases hg10 : s.liquidity (min tA tB) (max tA tB) sender < wrap112 L
        · rw [if_pos hg10] at h; exact absurd h (by simp)
        rw [if_neg hg10] at h
        unfold commitRemove at h
        injection h with h
        injection h with hs' h
        injection h with htr h
        exact ⟨hne, h0, by omega, by omega, by omega, by omega, by omega, by omega,
          htr.symm, hs'.symm⟩
      · rw [if_pos hg4] at h; exact absurd h (by simp)
    · rw [if_pos hg3] at h; exact absurd h (by simp)

/-- Inversion of a successful `getReserves` call. -/
lemma getReserves_ok {s : State} {tA tB rA rB : Nat}
    (h : getReservesE s tA tB = .ok (rA, rB)) :
    tA ≠ tB ∧ 0 < min tA tB ∧
    0 < (s.pools (min tA tB) (max tA tB)).reserveA ∧
    0 < (s.pools (min tA tB) (max tA tB)).reserveB ∧
    rA = (if tA < tB then (s.pools (min tA tB) (max tA tB)).reserveA
          else (s.pools (min tA tB) (max tA tB)).reserveB) ∧
    rB = (if tA < tB then (s.pools (min tA tB) (max tA tB)).reserveB
          else (s.pools (min tA tB) (max tA tB)).reserveA) := by
  unfold getReservesE at h
  split at h
  · exact absurd h (by simp)
  next t0 t1 heqSort =>
  obtain ⟨hne, h0, ht0, ht1⟩ := sortTokens_ok heqSort
  subst ht0
  subst ht1
  split at h
  · exact absurd h (by simp)
  next hrz =>
  split at h
  · next hta =>
    injection h with h
    injection h with h1 h2
    refine ⟨hne, h0, by omega, by omega, ?_, ?_⟩
    · rw [if_pos (show tA < tB by omega)]; exact h1.symm
    · rw [if_pos (show tA < tB by omega)]; exact h2.symm
  · next hta =>
    injection h with h
    injection h with h1 h2
    refine ⟨hne, h0, by omega, by omega, ?_, ?_⟩
    · rw [if_neg (show ¬ tA < tB by omega)]; exact h1.symm
    · rw [if_neg (show ¬ tA < tB by omega)]; exact h2.symm

/-- Inversion of a successful `_update`: both new reserves passed the
`uint112` bound check and were stored re-oriented to canonical order. -/
lemma update_ok {s : State} {tA tB x y : Nat} {s' : State}
    (h : updateE s tA tB x y = .ok s') :
    tA ≠ tB ∧ 0 < min tA tB ∧ x ≤ U112 - 1 ∧ y ≤ U112 - 1 ∧
    s' = ⟨setPool s.pools (min tA tB) (max tA tB)
            ⟨wrap112 (if tA < tB then x else y), wrap112 (if tA < tB then y else x),
             (s.pools (min tA tB) (max tA tB)).totalLiquidity⟩,
          s.liquidity⟩ := by
  unfold updateE at h
  split at h
  · exact absurd h (by simp)
  next t0 t1 heqSort =>
  obtain ⟨hne, h0, ht0, ht1⟩ := sortTokens_ok heqSort
  subst ht0
  subst ht1
  split at h
  · exact absurd h (by simp)
  next hb =>
  injection h with h
  refine ⟨hne, h0, by omega, by omega, ?_⟩
  rw [← h]
  by_cases htab : tA < tB
  · rw [if_pos (show tA = min tA tB by omega), if_pos (show tA = min tA tB by omega),
      if_pos htab, if_pos htab]
  · rw [if_neg (show ¬ tA = min tA tB by omega), if_neg (show ¬ tA = min tA tB by omega),
      if_neg htab, if_neg htab]

/-- Inversion of a successful swap: the pool was initialized, the output
came from `getAmountOut`, both updated reserves fit `uint112`, the commit
leaves total liquidity and all share balances unchanged, and the two
state writes precede the two transfers. -/
lemma swap_ok {s : State} {aIn outMin tIn tOut dst dl now : Nat}
    {s' : State} {tr : List Event} {x1 x2 : Nat}
    (h : swapE s aIn outMin tIn tOut dst dl now = .ok (s', tr, x1, x2)) :
    tIn ≠ tOut ∧ 0 < min tIn tOut ∧ 0 < aIn ∧ dst ≠ 0 ∧
    0 < (s.pools (min tIn tOut) (max tIn tOut)).reserveA ∧
    0 < (s.pools (min tIn tOut) (max tIn tOut)).reserveB ∧
    ∃ rIn rOut,
      rIn = (if tIn < tOut then (s.pools (min tIn tOut) (max tIn tOut)).reserveA
             else (s.pools (min tIn tOut) (max tIn tOut)).reserveB) ∧
      rOut = (if tIn < tOut then (s.pools (min tIn tOut) (max tIn tOut)).reserveB
              else (s.pools (min tIn tOut) (max tIn tOut)).reserveA) ∧
      getAmountOut aIn rIn rOut = .ok x2 ∧ outMin ≤ x2 ∧ x1 = aIn ∧
      rIn + aIn ≤ U112 - 1 ∧ rOut - x2 ≤ U112 - 1 ∧
      tr = [.stateWrite, .stateWrite, .tokenTransfer, .tokenTransfer] ∧
      s' = ⟨setPool s.pools (min tIn tOut) (max tIn tOut)
              ⟨wrap112 (if tIn < tOut then rIn + aIn else rOut - x2),
               wrap112 (if tIn < tOut then rOut - x2 else rIn + aIn),
               (s.pools (min tIn tOut) (max tIn tOut)).totalLiquidity⟩,
            s.liquidity⟩ := by
  unfold swapE at h
  split at h
  · exact absurd h (by simp)
  next hc1 =>
  split at h
  · exact absurd h (by simp)
  next hc2 =>
  split at h
  · exact absurd h (by simp)
  next hc3 =>
  split at h
  · exact absurd h (by simp)
  next hc4 =>
  split at h
  · exact absurd h (by simp)
  next rIn rOut heqG =>
  split at h
  · exact absurd h (by simp)
  next out heqA =>
  split at h
  · exact absurd h (by simp)
  next hmin =>
  split at h
  · exact absurd h (by simp)
  next hof1 =>
  split at h
  · exact absurd h (by simp)
  next hof2 =>
  split at h
  · exact absurd h (by simp)
  next s'' heqU =>
  obtain ⟨hneG, h0G, hrA, hrB, hrInEq, hrOutEq⟩ := getReserves_ok heqG
  obtain ⟨_, _, hx, hy, hs''⟩ := update_ok heqU
  injection h with h
  injection h with hs' h
  injection h with htr h
  injection h with hx1 hx2
  subst hx2
  refine ⟨hneG, h0G, by omega, by omega, hrA, hrB, rIn, rOut, hrInEq, hrOutEq,
    heqA, by omega, hx1.symm, hx, hy, htr.symm, ?_⟩
  rw [← hs', hs'']

/-! ## Invariant preservation -/

lemma setPool_same (f : Nat → Nat → Pool) (x y : Nat) (p : Pool) :
    setPool f x y p x y = p := by
  simp [setPool]

lemma setPool_other (f : Nat → Nat → Pool) (x y : Nat) (p : Pool) (a b : Nat)
    (h : ¬ (a = x ∧ b = y)) : setPool f x y p a b = f a b := by
  unfold setPool
  rw [if_neg h]

lemma add_preserves {s : State} {tA tB aDes bDes aMin bMin dst dl now : Nat}
    {s' : State} {tr : List Event} {rA rB lm : Nat}
    (h : addLiquidityE s tA tB aDes bDes aMin bMin dst dl now = .ok (s', tr, rA, rB, lm))
    (hWF : WFpools s) (hInv : PoolsInv s)
    (hT0 : (s.pools (min tA tB) (max tA tB)).reserveA + (if tA < tB then rA else rB) < U112)
    (hT1 : (s.pools (min tA tB) (max tA tB)).reserveB + (if tA < tB then rB else rA) < U112)
    (hT2 : (s.pools (min tA tB) (max tA tB)).totalLiquidity + lm < U112) :
    WFpools s' ∧ PoolsInv s' := by
  obtain ⟨a0, a1, hne, h0, hdst, haD, hbD, hdl, hAmt, hMint, hrA, hrB, htr,
    hb0, hb1, hb2, hb3, hs'⟩ := add_ok h
  have hca : (if tA < tB then rA else rB) = a0 := by
    by_cases htab : tA < tB <;> simp [htab, hrA, hrB]
  have hcb : (if tA < tB then rB else rA) = a1 := by
    by_cases htab : tA < tB <;> simp [htab, hrA, hrB]
  rw [hca] at hT0
  rw [hcb] at hT1
  obtain ⟨hm, hboot⟩ := computeMinted_ok hMint
  have hP := hInv (min tA tB) (max tA tB)
  have hAmtInfo := computeAmounts_ok hAmt
  subst hs'
  constructor
  · intro x y
    by_cases hxy : x = min tA tB ∧ y = max tA tB
    · obtain ⟨rfl, rfl⟩ := hxy
      simp only [setPool_same]
      exact ⟨wrap112_lt _, wrap112_lt _, wrap112_lt _⟩
    · have hold := hWF x y
      simpa [setPool_other _ _ _ _ _ _ hxy] using hold
  · intro x y
    by_cases hxy : x = min tA tB ∧ y = max tA tB
    · obtain ⟨rfl, rfl⟩ := hxy
      simp only [setPool_same]
      unfold PairInv at hP ⊢
      simp only [wrap112_eq_of_lt hT0, wrap112_eq_of_lt hT1, wrap112_eq_of_lt hT2]
      omega
    · have hold := hInv x y
      simpa [setPool_other _ _ _ _ _ _ hxy] using hold

lemma remove_preserves {s : State} {sender tA tB L aMin bMin dst dl now : Nat}
    {s' : State} {tr : List Event} {rA rB : Nat}
    (h : removeLiquidityE s sender tA tB L aMin bMin dst dl now = .ok (s', tr, rA, rB))
    (hWF : WFpools s) (hInv : PoolsInv s) :
    WFpools s' ∧ PoolsInv s' := by
  obtain ⟨hne, h0, hL, htL, huser, hLle, hle0, hle1, htr, hs'⟩ := remove_ok h
  subst hs'
  have hP := hInv (min tA tB) (max tA tB)
  have hWFP := hWF (min tA tB) (max tA tB)
  constructor
  · intro x y
    by_cases hxy : x = min tA tB ∧ y = max tA tB
    · obtain ⟨rfl, rfl⟩ := hxy
      simp only [setPool_same]
      exact ⟨wrap112_lt _, wrap112_lt _, wrap112_lt _⟩
    · have hold := hWF x y
      simpa [setPool_other _ _ _ _ _ _ hxy] using hold
  · intro x y
    by_cases hxy : x = min tA tB ∧ y = max tA tB
    · obtain ⟨rfl, rfl⟩ := hxy
      simp only [setPool_same]
      unfold PairInv at hP ⊢
      dsimp only
      rw [wrap112_eq_of_lt (Nat.lt_of_le_of_lt (Nat.sub_le _ _) hWFP.1),
        wrap112_eq_of_lt (Nat.lt_of_le_of_lt (Nat.sub_le _ _) hWFP.2.1),
        wrap112_eq_of_lt (Nat.lt_of_le_of_lt (Nat.sub_le _ _) hWFP.2.2)]
      rcases eq_or_lt_of_le hLle with hEq | hLt
      · have h1 : L * (s.pools (min tA tB) (max tA tB)).reserveA
            / (s.pools (min tA tB) (max tA tB)).totalLiquidity
            = (s.pools (min tA tB) (max tA tB)).reserveA := by
          rw [hEq]
          exact Nat.mul_div_cancel_left _ htL
        have h2 : L * (s.pools (min tA tB) (max tA tB)).reserveB
            / (s.pools (min tA tB) (max tA tB)).totalLiquidity
            = (s.pools (min tA tB) (max tA tB)).reserveB := by
          rw [hEq]
          exact Nat.mul_div_cancel_left _ htL
        rw [h1, h2]
        omega
      · have hApos : 0 < (s.pools (min tA tB) (max tA tB)).reserveA := by omega
        have hBpos : 0 < (s.pools (min tA tB) (max tA tB)).reserveB := by omega
        have ha0 : L * (s.pools (min tA tB) (max tA tB)).reserveA
            / (s.pools (min tA tB) (max tA tB)).totalLiquidity
            < (s.pools (min tA tB) (max tA tB)).reserveA := by
          rw [Nat.div_lt_iff_lt_mul htL]
          calc L * (s.pools (min tA tB) (max tA tB)).reserveA
              < (s.pools (min tA tB) (max tA tB)).totalLiquidity
                * (s.pools (min tA tB) (max tA tB)).reserveA :=
                (Nat.mul_lt_mul_right hApos).mpr hLt
            _ = (s.pools (min tA tB) (max tA tB)).reserveA
                * (s.pools (min tA tB) (max tA tB)).totalLiquidity := Nat.mul_comm _ _
        have ha1 : L * (s.pools (min tA tB) (max tA tB)).reserveB
            / (s.pools (min tA tB) (max tA tB)).totalLiquidity
            < (s.pools (min tA tB) (max tA tB)).reserveB := by
          rw [Nat.div_lt_iff_lt_mul htL]
          calc L * (s.pools (min tA tB) (max tA tB)).reserveB
              < (s.pools (min tA tB) (max tA tB)).totalLiquidity
                * (s.pools (min tA tB) (max tA tB)).reserveB :=
                (Nat.mul_lt_mul_right hBpos).mpr hLt
            _ = (s.pools (min tA tB) (max tA tB)).reserveB
                * (s.pools (min tA tB) (max tA tB)).totalLiquidity := Nat.mul_comm _ _
        omega
    · have hold := hInv x y
      simpa [setPool_other _ _ _ _ _ _ hxy] using hold

lemma swap_preserves {s : State} {aIn outMin tIn tOut dst dl now : Nat}
    {s' : State} {tr : List Event} {x1 x2 : Nat}
    (h : swapE s aIn outMin tIn tOut dst dl now = .ok (s', tr, x1, x2))
    (hWF : WFpools s) (hInv : PoolsInv s) :
    WFpools s' ∧ PoolsInv s' := by
  obtain ⟨hne, h0, haIn, hdst, hA, hB, rIn, rOut, hrIn, hrOut, hout, hminOut, hx1,
    hbIn, hbOut, htr, hs'⟩ := swap_ok h
  subst hs'
  have hP := hInv (min tIn tOut) (max tIn tOut)
  have hWFP := hWF (min tIn tOut) (max tIn tOut)
  have hU := U112_pos
  have hlt := amountOut_lt hout
  have eIn : wrap112 (rIn + aIn) = rIn + aIn := wrap112_eq_of_lt (by omega)
  have eOut : wrap112 (rOut - x2) = rOut - x2 := wrap112_eq_of_lt (by omega)
  constructor
  · intro x y
    by_cases hxy : x = min tIn tOut ∧ y = max tIn tOut
    · obtain ⟨rfl, rfl⟩ := hxy
      simp only [setPool_same]
      exact ⟨wrap112_lt _, wrap112_lt _, hWFP.2.2⟩
    · have hold := hWF x y
      simpa [setPool_other _ _ _ _ _ _ hxy] using hold
  · intro x y
    by_cases hxy : x = min tIn tOut ∧ y = max tIn tOut
    · obtain ⟨rfl, rfl⟩ := hxy
      simp only [setPool_same]
      unfold PairInv at hP ⊢
      by_cases htab : tIn < tOut
      · simp only [if_pos htab, eIn, eOut]
        omega
      · simp only [if_neg htab, eIn, eOut]
        omega
    · have hold := hInv x y
      simpa [setPool_other _ _ _ _ _ _ hxy] using hold

lemma reachB_invariant (s : State) (h : ReachableB s) : WFpools s ∧ PoolsInv s := by
  induction h with
  | init =>
    constructor
    · intro x y
      exact ⟨U112_pos, U112_pos, U112_pos⟩
    · intro x y
      exact ⟨Iff.rfl, by simp [initialState, PairInv]⟩
  | add s tA tB aDes bDes aMin bMin dst dl now s' tr rA rB lm hre hok hT0 hT1 hT2 ih =>
    exact add_preserves hok ih.1 ih.2 hT0 hT1 hT2
  | remove s sender tA tB L aMin bMin dst dl now s' tr rA rB hre hok ih =>
    exact remove_preserves hok ih.1 ih.2
  | swap s aIn outMin tIn tOut dst dl now s' tr x1 x2 hre hok ih =>
    exact swap_preserves hok ih.1 ih.2

/-! ## The claims -/

/-- Claim C1: for every successful swap the constant product of the pool's
canonical reserves does not decrease, and it strictly increases whenever
`amountIn > 0` (which every successful swap requires). -/
theorem spec_C1 (s : State) (aIn outMin tIn tOut dst dl now : Nat)
    (s' : State) (tr : List Event) (x1 x2 : Nat)
    (h : swapE s aIn outMin tIn tOut dst dl now = .ok (s', tr, x1, x2)) :
    (s.pools (min tIn tOut) (max tIn tOut)).reserveA *
      (s.pools (min tIn tOut) (max tIn tOut)).reserveB ≤
    (s'.pools (min tIn tOut) (max tIn tOut)).reserveA *
      (s'.pools (min tIn tOut) (max tIn tOut)).reserveB ∧
    (0 < aIn →
      (s.pools (min tIn tOut) (max tIn tOut)).reserveA *
        (s.pools (min tIn tOut) (max tIn tOut)).reserveB <
      (s'.pools (min tIn tOut) (max tIn tOut)).reserveA *
        (s'.pools (min tIn tOut) (max tIn tOut)).reserveB) := by
  obtain ⟨hne, h0, haIn, hdst, hA, hB, rIn, rOut, hrIn, hrOut, hout, hminOut, hx1,
    hbIn, hbOut, htr, hs'⟩ := swap_ok h
  subst hs'
  subst hrIn
  subst hrOut
  have hU := U112_pos
  have hk := k_increase hout
  have hstrict : (s.pools (min tIn tOut) (max tIn tOut)).reserveA *
      (s.pools (min tIn tOut) (max tIn tOut)).reserveB <
      ((State.mk (setPool s.pools (min tIn tOut) (max tIn tOut)
        ⟨wrap112 (if tIn < tOut
            then (if tIn < tOut then (s.pools (min tIn tOut) (max tIn tOut)).reserveA
                  else (s.pools (min tIn tOut) (max tIn tOut)).reserveB) + aIn
            else (if tIn < tOut then (s.pools (min tIn tOut) (max tIn tOut)).reserveB
                  else (s.pools (min tIn tOut) (max tIn tOut)).reserveA) - x2),
         wrap112 (if tIn < tOut
            then (if tIn < tOut then (s.pools (min tIn tOut) (max tIn tOut)).reserveB
                  else (s.pools (min tIn tOut) (max tIn tOut)).reserveA) - x2
            else (if tIn < tOut then (s.pools (min tIn tOut) (max tIn tOut)).reserveA
                  else (s.pools (min tIn tOut) (max tIn tOut)).reserveB) + aIn),
         (s.pools (min tIn tOut) (max tIn tOut)).totalLiquidity⟩) s.liquidity).pools
          (min tIn tOut) (max tIn tOut)).reserveA *
      ((State.mk (setPool s.pools (min tIn tOut) (max tIn tOut)
        ⟨wrap112 (if tIn < tOut
            then (if tIn < tOut then (s.pools (min tIn tOut) (max tIn tOut)).reserveA
                  else (s.pools (min tIn tOut) (max tIn tOut)).reserveB) + aIn
            else (if tIn < tOut then (s.pools (min tIn tOut) (max tIn tOut)).reserveB
                  else (s.pools (min tIn tOut) (max tIn tOut)).reserveA) - x2),
         wrap112 (if tIn < tOut
            then (if tIn < tOut then (s.pools (min tIn tOut) (max tIn tOut)).reserveB
                  else (s.pools (min tIn tOut) (max tIn tOut)).reserveA) - x2
            else (if tIn < tOut then (s.pools (min tIn tOut) (max tIn tOut)).reserveA
                  else (s.pools (min tIn tOut) (max tIn tOut)).reserveB) + aIn),
         (s.pools (min tIn tOut) (max tIn tOut)).totalLiquidity⟩) s.liquidity).pools
          (min tIn tOut) (max tIn tOut)).reserveB := by
    show (s.pools (min tIn tOut) (max tIn tOut)).reserveA *
        (s.pools (min tIn tOut) (max tIn tOut)).reserveB <
      (setPool s.pools (min tIn tOut) (max tIn tOut) _ (min tIn tOut) (max tIn tOut)).reserveA *
      (setPool s.pools (min tIn tOut) (max tIn tOut) _ (min tIn tOut) (max tIn tOut)).reserveB
    rw [setPool_same]
    by_cases htab : tIn < tOut
    · simp only [if_pos htab] at hk hbIn hbOut ⊢
      have e1 : wrap112 ((s.pools (min tIn tOut) (max tIn tOut)).reserveA + aIn)
          = (s.pools (min tIn tOut) (max tIn tOut)).reserveA + aIn :=
        wrap112_eq_of_lt (by omega)
      have e2 : wrap112 ((s.pools (min tIn tOut) (max tIn tOut)).reserveB - x2)
          = (s.pools (min tIn tOut) (max tIn tOut)).reserveB - x2 :=
        wrap112_eq_of_lt (by omega)
      rw [e1, e2]
      exact hk
    · simp only [if_neg htab] at hk hbIn hbOut ⊢
      have e1 : wrap112 ((s.pools (min tIn tOut) (max tIn tOut)).reserveB + aIn)
          = (s.pools (min tIn tOut) (max tIn tOut)).reserveB + aIn :=
        wrap112_eq_of_lt (by omega)
      have e2 : wrap112 ((s.pools (min tIn tOut) (max tIn tOut)).reserveA - x2)
          = (s.pools (min tIn tOut) (max tIn tOut)).reserveA - x2 :=
        wrap112_eq_of_lt (by omega)
      rw [e1, e2]
      calc (s.pools (min tIn tOut) (max tIn tOut)).reserveA *
          (s.pools (min tIn tOut) (max tIn tOut)).reserveB
        = (s.pools (min tIn tOut) (max tIn tOut)).reserveB *
          (s.pools (min tIn tOut) (max tIn tOut)).reserveA := Nat.mul_comm _ _
        _ < ((s.pools (min tIn tOut) (max tIn tOut)).reserveB + aIn) *
            ((s.pools (min tIn tOut) (max tIn tOut)).reserveA - x2) := hk
        _ = ((s.pools (min tIn tOut) (max tIn tOut)).reserveA - x2) *
            ((s.pools (min tIn tOut) (max tIn tOut)).reserveB + aIn) := Nat.mul_comm _ _
  exact ⟨Nat.le_of_lt hstrict, fun _ => hstrict⟩

/-- Witness for C1: a concrete successful swap on `demoState` strictly
increases the reserve product. -/
theorem spec_C1_witness :
    ∃ r, swapE demoState 100 0 1 2 3 0 0 = .ok r ∧
      (demoState.pools 1 2).reserveA * (demoState.pools 1 2).reserveB <
      (r.1.pools 1 2).reserveA * (r.1.pools 1 2).reserveB := by
  obtain ⟨r, hr⟩ : ∃ r, swapE demoState 100 0 1 2 3 0 0 = .ok r := by
    cases hE : swapE demoState 100 0 1 2 3 0 0 with
    | ok r => exact ⟨r, rfl⟩
    | error e =>
      exfalso
      have hnone : errOf (swapE demoState 100 0 1 2 3 0 0) = none := by decide
      rw [hE] at hnone
      simp [errOf] at hnone
  obtain ⟨s', tr, x1, x2⟩ := r
  have hmain := (spec_C1 demoState 100 0 1 2 3 0 0 s' tr x1 x2 hr).2 (by decide)
  exact ⟨(s', tr, x1, x2), hr, by simpa using hmain⟩

/-- Claim C2 (amended): whenever the intermediate `uint256` products and
sums fit below `2^256` — in particular for all realistic reserve values —
`getAmountOut` returns exactly
`⌊amountIn·997·reserveOut / (reserveIn·1000 + amountIn·997)⌋`. -/
theorem spec_C2 (a ri ro : Nat) (ha : 0 < a) (hri : 0 < ri) (hro : 0 < ro)
    (h1 : a * 997 * ro < U256) (h2 : ri * 1000 + a * 997 < U256) :
    getAmountOut a ri ro = .ok (a * 997 * ro / (ri * 1000 + a * 997)) :=
  getAmountOut_eq a ri ro ha hri hro h1 h2

/-- Counterexample to C2 as stated: at `amountIn = 2^255` the checked
multiplication `amountIn * 997` overflows `uint256` and the call reverts
with `Panic(0x11)` instead of returning the floor-formula value. -/
theorem spec_C2_cex :
    getAmountOut (2 ^ 255) 1 1 ≠ .ok (2 ^ 255 * 997 * 1 / (1 * 1000 + 2 ^ 255 * 997)) := by
  have h : getAmountOut (2 ^ 255) 1 1 = .error .PanicOverflow := errOf_eq (by decide)
  rw [h]
  simp

/-- Witness for C2: the spec's Scenario 2 value, computed exactly. -/
theorem spec_C2_witness :
    getAmountOut (10 * 10 ^ 18) (100 * 10 ^ 18) (200 * 10 ^ 6) =
      .ok (10 * 10 ^ 18 * 997 * (200 * 10 ^ 6)
        / (100 * 10 ^ 18 * 1000 + 10 * 10 ^ 18 * 997)) :=
  spec_C2 (10 * 10 ^ 18) (100 * 10 ^ 18) (200 * 10 ^ 6) (by decide) (by decide)
    (by decide) (by decide) (by decide)

/-- Claim C6: for all positive inputs on which `getAmountOut` returns, the
output is strictly below `reserveOut`, so the swap's reserve update
`reserveOut - amountOut` cannot underflow. -/
theorem spec_C6 (a ri ro out : Nat) (ha : 0 < a) (hri : 0 < ri) (hro : 0 < ro)
    (h : getAmountOut a ri ro = .ok out) : out < ro :=
  amountOut_lt h

/-- Witness for C6 at a concrete input. -/
theorem spec_C6_witness : getAmountOut 10 100 200 = .ok 18 ∧ 18 < 200 :=
  ⟨by decide, spec_C6 10 100 200 18 (by decide) (by decide) (by decide) (by decide)⟩

/-- Claim C3 (code bug): the failing input.  `addLiquidity` of
`2^112` of token 1 and `4` of token 2 on a fresh pool does NOT revert with
a reserve-overflow error (first conjunct: no error at all) — instead the
unchecked `uint112` cast of source line 373 silently truncates, committing
`reserve0 = 0` while `reserve1 = 4` (second conjunct), violating the
spec's requirement that every reserve update is checked (no partial or
truncated commit). -/
theorem spec_C3 :
    errOf (addLiquidityE initialState 1 2 (2 ^ 112) 4 0 0 3 0 0) = none ∧
    (addLiquidityE initialState 1 2 (2 ^ 112) 4 0 0 3 0 0).toOption.map
      (fun r => ((r.1.pools 1 2).reserveA, (r.1.pools 1 2).reserveB)) = some (0, 4) :=
  ⟨by decide, by decide⟩

/-- Counterexample to C4 as stated: a successful `addLiquidity` call whose
event trace performs both inbound `transferFrom`s (source lines 355-356)
BEFORE the state commit (source lines 373-378), so its trace is not in
commit-before-transfer order. -/
theorem spec_C4_cex :
    (addLiquidityE initialState 1 2 100 100 0 0 3 0 0).toOption.map
      (fun r => commitsBeforeTransfersB r.2.1) = some false := by
  decide

/-- Claim C4 (amended): in every successful `removeLiquidity` and
`swapExactTokensForTokens` all state writes precede the external token
transfers, but in every successful `addLiquidity` the two inbound
`transferFrom` calls precede the state commit (the contract relies on its
reentrancy guard there instead of commit-before-transfer ordering). -/
theorem spec_C4 :
    (∀ s sender tA tB L aMin bMin dst dl now s' tr rA rB,
      removeLiquidityE s sender tA tB L aMin bMin dst dl now = .ok (s', tr, rA, rB) →
      tr = [.stateWrite, .stateWrite, .stateWrite, .stateWrite,
            .tokenTransfer, .tokenTransfer] ∧ commitsBeforeTransfersB tr = true) ∧
    (∀ s aIn outMin tIn tOut dst dl now s' tr x1 x2,
      swapE s aIn outMin tIn tOut dst dl now = .ok (s', tr, x1, x2) →
      tr = [.stateWrite, .stateWrite, .tokenTransfer, .tokenTransfer] ∧
      commitsBeforeTransfersB tr = true) ∧
    (∀ s tA tB aDes bDes aMin bMin dst dl now s' tr rA rB lm,
      addLiquidityE s tA tB aDes bDes aMin bMin dst dl now = .ok (s', tr, rA, rB, lm) →
      tr = [.tokenTransfer, .tokenTransfer, .stateWrite, .stateWrite,
            .stateWrite, .stateWrite] ∧ commitsBeforeTransfersB tr = false) := by
  refine ⟨?_, ?_, ?_⟩
  · intro s sender tA tB L aMin bMin dst dl now s' tr rA rB h
    obtain ⟨_, _, _, _, _, _, _, _, htr, _⟩ := remove_ok h
    exact ⟨htr, by rw [htr]; rfl⟩
  · intro s aIn outMin tIn tOut dst dl now s' tr x1 x2 h
    obtain ⟨_, _, _, _, _, _, rIn, rOut, _, _, _, _, _, _, _, htr, _⟩ := swap_ok h
    exact ⟨htr, by rw [htr]; rfl⟩
  · intro s tA tB aDes bDes aMin bMin dst dl now s' tr rA rB lm h
    obtain ⟨a0, a1, _, _, _, _, _, _, _, _, _, _, htr, _, _, _, _, _⟩ := add_ok h
    exact ⟨htr, by rw [htr]; rfl⟩

/-- Witness for C4: a concrete successful withdrawal whose trace is in
commit-before-transfer order. -/
theorem spec_C4_witness :
    ∃ r, removeLiquidityE demoState 3 1 2 50 0 0 3 0 0 = .ok r ∧
      commitsBeforeTransfersB r.2.1 = true := by
  obtain ⟨r, hr⟩ : ∃ r, removeLiquidityE demoState 3 1 2 50 0 0 3 0 0 = .ok r := by
    cases hE : removeLiquidityE demoState 3 1 2 50 0 0 3 0 0 with
    | ok r => exact ⟨r, rfl⟩
    | error e =>
      exfalso
      have hnone : errOf (removeLiquidityE demoState 3 1 2 50 0 0 3 0 0) = none := by decide
      rw [hE] at hnone
      simp [errOf] at hnone
  obtain ⟨s', tr, rA, rB⟩ := r
  exact ⟨(s', tr, rA, rB), hr,
    (spec_C4.1 demoState 3 1 2 50 0 0 3 0 0 s' tr rA rB hr).2⟩

/-- Counterexample to C5 as stated: a single `addLiquidity` call with
`amountADesired = 2^112` on the empty state is reachable and commits a
truncated `reserve0 = 0` next to `reserve1 = 6` and positive total shares,
violating both pool invariants. -/
theorem spec_C5_cex : ¬ (∀ s, Reachable s → PoolsInv s) := by
  intro hall
  obtain ⟨r, hr⟩ : ∃ r, addLiquidityE initialState 1 2 (2 ^ 112) 6 0 0 3 0 0 = .ok r := by
    cases hE : addLiquidityE initialState 1 2 (2 ^ 112) 6 0 0 3 0 0 with
    | ok r => exact ⟨r, rfl⟩
    | error e =>
      exfalso
      have hnone : errOf (addLiquidityE initialState 1 2 (2 ^ 112) 6 0 0 3 0 0) = none := by
        decide
      rw [hE] at hnone
      simp [errOf] at hnone
  obtain ⟨s', tr, rA, rB, lm⟩ := r
  have hfields : (addLiquidityE initialState 1 2 (2 ^ 112) 6 0 0 3 0 0).toOption.map
      (fun r => ((r.1.pools 1 2).reserveA, (r.1.pools 1 2).reserveB)) = some (0, 6) := by
    decide
  rw [hr] at hfields
  simp [Except.toOption] at hfields
  have hreach : Reachable s' :=
    Reachable.add initialState 1 2 (2 ^ 112) 6 0 0 3 0 0 s' tr rA rB lm Reachable.init hr
  have hinv := hall s' hreach 1 2
  unfold PairInv at hinv
  omega

/-- Claim C5 (amended): starting from the all-empty state, any sequence of
successful operations in which every deposit keeps the committed reserves
and total shares below `2^112` (so the unchecked `uint112` casts of
`_addLiquidity` do not truncate) maintains, for every pool,
`reserve0 = 0 ↔ reserve1 = 0` and `totalShares = 0 ↔ both reserves = 0`. -/
theorem spec_C5 (s : State) (h : ReachableB s) : PoolsInv s :=
  (reachB_invariant s h).2

/-- Witness for C5 at the initial state. -/
theorem spec_C5_witness : PoolsInv initialState :=
  spec_C5 initialState ReachableB.init

/-- Counterexample to C7 as stated: bootstrapping with
`amount0 = amount1 = 2^128` (both positive, integer square root `2^128`,
hence nonzero) neither mints `⌊√(amount0·amount1)⌋` shares nor fails with
`InsufficientLiquidityMinted` — the checked multiplication
`amount0 * amount1` overflows `uint256` and the call reverts with
`Panic(0x11)`. -/
theorem spec_C7_cex :
    addLiquidityE initialState 1 2 (2 ^ 128) (2 ^ 128) 0 0 3 0 0 = .error .PanicOverflow ∧
    Nat.sqrt (2 ^ 128 * 2 ^ 128) = 2 ^ 128 :=
  ⟨errOf_eq (by decide), Nat.sqrt_eq (2 ^ 128)⟩

/-- Claim C7 (amended): for every `addLiquidity` call that bootstraps an
empty pool with positive desired amounts whose product fits `uint256`, the
call succeeds minting exactly `⌊√(amount0·amount1)⌋` shares, and it fails
with `InsufficientLiquidityMinted` exactly when that square root is zero
(which positive amounts rule out). -/
theorem spec_C7 (s : State) (tA tB aDes bDes aMin bMin dst dl now : Nat)
    (hne : tA ≠ tB) (h0 : 0 < min tA tB) (hdst : dst ≠ 0)
    (ha : 0 < aDes) (hb : 0 < bDes) (hdl : now ≤ dl)
    (hpool : s.pools (min tA tB) (max tA tB) = ⟨0, 0, 0⟩)
    (huser : s.liquidity (min tA tB) (max tA tB) dst = 0)
    (hprod : aDes * bDes < U256) :
    (∃ s' tr a1 a2, addLiquidityE s tA tB aDes bDes aMin bMin dst dl now
        = .ok (s', tr, a1, a2, Nat.sqrt (aDes * bDes))) ∧
    (errOf (addLiquidityE s tA tB aDes bDes aMin bMin dst dl now) = some .ILM ↔
      Nat.sqrt (aDes * bDes) = 0) := by
  have hboot := add_boot s tA tB aDes bDes aMin bMin dst dl now hne h0 hdst ha hb hdl
    hpool huser hprod
  refine ⟨⟨_, _, _, _, hboot⟩, ?_⟩
  rw [hboot]
  have hm0 : Nat.sqrt (aDes * bDes) ≠ 0 :=
    Nat.pos_iff_ne_zero.mp (Nat.sqrt_pos.mpr (Nat.mul_pos ha hb))
  simp [errOf, hm0]

/-- Witness for C7: the spec's Scenario 1 bootstrap
(`amount0 = 100e18`, `amount1 = 200e6`). -/
theorem spec_C7_witness :
    (∃ s' tr a1 a2, addLiquidityE initialState 1 2 (100 * 10 ^ 18) (200 * 10 ^ 6) 0 0 3 0 0
        = .ok (s', tr, a1, a2, Nat.sqrt (100 * 10 ^ 18 * (200 * 10 ^ 6)))) ∧
    (errOf (addLiquidityE initialState 1 2 (100 * 10 ^ 18) (200 * 10 ^ 6) 0 0 3 0 0)
        = some .ILM ↔ Nat.sqrt (100 * 10 ^ 18 * (200 * 10 ^ 6)) = 0) :=
  spec_C7 initialState 1 2 (100 * 10 ^ 18) (200 * 10 ^ 6) 0 0 3 0 0 (by decide) (by decide)
    (by decide) (by decide) (by decide) (by decide) rfl rfl (by decide)

/-- Counterexample to C8 as stated: on a pool with positive reserves
`(2^100, 2^100)` and `amountADesired = 2^156`, the claimed selection rule
predicts the else-branch outcome `(amount0, amount1) =
(amountBDesired·reserve0/reserve1, amountBDesired) = (1, 1)`, but the
checked multiplication `amountADesired * reserve1` overflows `uint256`
(source line 340) and the call reverts with `Panic(0x11)` instead. -/
theorem spec_C8_cex :
    computeAmounts 1 1 (2 ^ 100) (2 ^ 100) (2 ^ 156) 1 0 0 = .error .PanicOverflow ∧
    computeAmounts 1 1 (2 ^ 100) (2 ^ 100) (2 ^ 156) 1 0 0 ≠ .ok (1 * 2 ^ 100 / 2 ^ 100, 1) :=
  ⟨by decide, by decide⟩

/-- Claim C8 (amended): on a pool with positive reserves, provided the two
intermediate products `amountADesired·reserve1` and
`amountBDesired·reserve0` fit `uint256`, the deposited amounts are chosen
exactly as claimed: `amount1Optimal = amountADesired·reserve1/reserve0`
(truncating); if it is `≤ amountBDesired` the pair
`(amountADesired, amount1Optimal)` is used, failing `SS:INB` (SlippageB)
when `amount1Optimal < amountBMin`; otherwise
`amount0Optimal = amountBDesired·reserve0/reserve1` is used with
`amountBDesired`, failing `SS:INA` when `amount0Optimal > amountADesired`
(InsufficientA) or `amount0Optimal < amountAMin` (SlippageA). -/
theorem spec_C8 (tokenA t0 r0 r1 aDes bDes aMin bMin : Nat)
    (hr0 : 0 < r0) (hr1 : 0 < r1) (hm1 : aDes * r1 < U256) (hm2 : bDes * r0 < U256) :
    (aDes * r1 / r0 ≤ bDes →
      (bMin ≤ aDes * r1 / r0 →
        computeAmounts tokenA t0 r0 r1 aDes bDes aMin bMin = .ok (aDes, aDes * r1 / r0)) ∧
      (aDes * r1 / r0 < bMin →
        computeAmounts tokenA t0 r0 r1 aDes bDes aMin bMin = .error .INB)) ∧
    (bDes < aDes * r1 / r0 →
      (aDes < bDes * r0 / r1 →
        computeAmounts tokenA t0 r0 r1 aDes bDes aMin bMin = .error .INA) ∧
      (bDes * r0 / r1 ≤ aDes → bDes * r0 / r1 < aMin →
        computeAmounts tokenA t0 r0 r1 aDes bDes aMin bMin = .error .INA) ∧
      (bDes * r0 / r1 ≤ aDes → aMin ≤ bDes * r0 / r1 →
        computeAmounts tokenA t0 r0 r1 aDes bDes aMin bMin = .ok (bDes * r0 / r1, bDes))) := by
  unfold computeAmounts
  rw [if_neg (show ¬ (r0 = 0 ∧ r1 = 0) by omega), if_neg (not_not_intro hm1),
    if_neg (show ¬ r0 = 0 by omega)]
  constructor
  · intro hle
    rw [if_pos hle]
    constructor
    · intro hbm
      rw [if_neg (by omega)]
    · intro hbm
      rw [if_pos hbm]
  · intro hgt
    rw [if_neg (by omega), if_neg (not_not_intro hm2), if_neg (show ¬ r1 = 0 by omega)]
    refine ⟨?_, ?_, ?_⟩
    · intro hlt
      rw [if_pos hlt]
    · intro hle hmn
      rw [if_neg (by omega), if_pos hmn]
    · intro hle hmn
      rw [if_neg (by omega), if_neg (by omega)]

/-- Witness for C8: a proportional deposit on reserves `(100, 200)` with
desired amounts `(10, 30)` selects `(10, 10·200/100)`. -/
theorem spec_C8_witness :
    computeAmounts 1 1 100 200 10 30 0 0 = .ok (10, 10 * 200 / 100) :=
  ((spec_C8 1 1 100 200 10 30 0 0 (by decide) (by decide) (by decide) (by decide)).1
    (by decide)).1 (by decide)

/-- Claim C10: for a valid token pair, `getReserves` succeeds exactly when
both canonical reserves are positive, returning them oriented to the
caller's order (hence never `(0, 0)`); on a pool with any zero reserve it
reverts `SS:RNI`, and `getPrice` and (for otherwise valid arguments)
`swapExactTokensForTokens` fail with the same `SS:RNI` at that reserve
read. -/
theorem spec_C10 (s : State) (tA tB : Nat) (hne : tA ≠ tB) (h0 : 0 < min tA tB) :
    ((∃ rA rB, getReservesE s tA tB = .ok (rA, rB)) ↔
      (0 < (s.pools (min tA tB) (max tA tB)).reserveA ∧
       0 < (s.pools (min tA tB) (max tA tB)).reserveB)) ∧
    (∀ rA rB, getReservesE s tA tB = .ok (rA, rB) →
      0 < rA ∧ 0 < rB ∧
      rA = (if tA < tB then (s.pools (min tA tB) (max tA tB)).reserveA
            else (s.pools (min tA tB) (max tA tB)).reserveB) ∧
      rB = (if tA < tB then (s.pools (min tA tB) (max tA tB)).reserveB
            else (s.pools (min tA tB) (max tA tB)).reserveA)) ∧
    ((s.pools (min tA tB) (max tA tB)).reserveA = 0 ∨
     (s.pools (min tA tB) (max tA tB)).reserveB = 0 →
      getReservesE s tA tB = .error .RNI ∧
      getPriceE s tA tB = .error .RNI ∧
      (∀ aIn outMin dst dl now, dst ≠ 0 → 0 < aIn → now ≤ dl →
        swapE s aIn outMin tA tB dst dl now = .error .RNI)) := by
  have hsort := sortTokens_eq tA tB hne h0
  refine ⟨⟨?_, ?_⟩, ?_, ?_⟩
  · rintro ⟨rA, rB, h⟩
    obtain ⟨_, _, hA, hB, _, _⟩ := getReserves_ok h
    exact ⟨hA, hB⟩
  · rintro ⟨hA, hB⟩
    simp only [getReservesE, hsort]
    rw [if_neg (by omega)]
    exact ⟨_, _, rfl⟩
  · intro rA rB h
    obtain ⟨_, _, hA, hB, h1, h2⟩ := getReserves_ok h
    refine ⟨?_, ?_, h1, h2⟩
    · rw [h1]
      by_cases htab : tA < tB
      · rw [if_pos htab]; exact hA
      · rw [if_neg htab]; exact hB
    · rw [h2]
      by_cases htab : tA < tB
      · rw [if_pos htab]; exact hB
      · rw [if_neg htab]; exact hA
  · intro hz
    have hgr : getReservesE s tA tB = .error .RNI := by
      simp only [getReservesE, hsort]
      rw [if_pos hz]
    refine ⟨hgr, ?_, ?_⟩
    · simp only [getPriceE, hsort]
      rw [if_pos hz]
    · intro aIn outMin dst dl now hdst haIn hdl
      simp only [swapE]
      rw [if_neg hdst, if_neg hne, if_neg (show ¬ aIn = 0 by omega),
        if_neg (show ¬ dl < now by omega)]
      simp only [hgr]

/-- Witness for C10: on the never-seeded pool `(1,2)` of the empty state
both `getReserves` and `getPrice` revert `SS:RNI`. -/
theorem spec_C10_witness :
    getReservesE initialState 1 2 = .error .RNI ∧
    getPriceE initialState 1 2 = .error .RNI := by
  have h := (spec_C10 initialState 1 2 (by decide) (by decide)).2.2 (Or.inl rfl)
  exact ⟨h.1, h.2.1⟩

lemma setLiq_same (f : Nat → Nat → Nat → Nat) (x y u v : Nat) :
    setLiq f x y u v x y u = v := by
  simp [setLiq]

/-- Counterexample to C9 as stated: depositing `(2^113, 2^113)` into an
empty pool succeeds and reports `2^113` minted shares, but every stored
`uint112` field truncates to `0`, so withdrawing all minted shares as the
sole holder reverts `SS:ITL` (empty pool) instead of returning amounts
`≤ (a, b)` and draining the pool. -/
theorem spec_C9_cex :
    ∃ s₁ tr₁, addLiquidityE initialState 1 2 (2 ^ 113) (2 ^ 113) 0 0 3 0 0
        = .ok (s₁, tr₁, 2 ^ 113, 2 ^ 113, 2 ^ 113) ∧
      removeLiquidityE s₁ 3 1 2 (2 ^ 113) 0 0 3 0 0 = .error .ITL := by
  have hboot := add_boot initialState 1 2 (2 ^ 113) (2 ^ 113) 0 0 3 0 0 (by decide)
    (by decide) (by decide) (by decide) (by decide) (Nat.le_refl 0) rfl rfl (by decide)
  rw [Nat.sqrt_eq] at hboot
  refine ⟨_, _, hboot, ?_⟩
  exact errOf_eq (by decide)

/-- Claim C9 (amended): for all `a, b > 0` with
`⌊√(a·b)⌋ < 2^112` (so the minted shares are representable in the
holder's `uint112` balance), depositing `(a, b)` into the empty pool and
then withdrawing all minted shares as the sole holder succeeds, returns
amounts `≤ (a, b)`, drains the pool to `(0, 0)` reserves and zero total
shares, after which `addLiquidity` re-bootstraps at any new ratio
`(c, d)`. -/
theorem spec_C9 (a b : Nat) (ha : 0 < a) (hb : 0 < b)
    (hs : Nat.sqrt (a * b) < U112) :
    ∃ s₁ tr₁,
      addLiquidityE initialState 1 2 a b 0 0 3 0 0
        = .ok (s₁, tr₁, a, b, Nat.sqrt (a * b)) ∧
      ∃ s₂ tr₂ outA outB,
        removeLiquidityE s₁ 3 1 2 (Nat.sqrt (a * b)) 0 0 3 0 0
          = .ok (s₂, tr₂, outA, outB) ∧
        outA ≤ a ∧ outB ≤ b ∧
        s₂.pools 1 2 = ⟨0, 0, 0⟩ ∧ s₂.liquidity 1 2 3 = 0 ∧
        (∀ c d, 0 < c → 0 < d → c * d < U256 →
          ∃ s₃ tr₃, addLiquidityE s₂ 1 2 c d 0 0 3 0 0
            = .ok (s₃, tr₃, c, d, Nat.sqrt (c * d))) := by
  have hm : 0 < Nat.sqrt (a * b) := Nat.sqrt_pos.mpr (Nat.mul_pos ha hb)
  have hsq : a * b < U112 * U112 := Nat.sqrt_lt.mp hs
  have hprod : a * b < U256 := lt_of_lt_of_le hsq (by decide)
  have h12 : (1 : Nat) < 2 := by decide
  have hw : wrap112 (Nat.sqrt (a * b)) = Nat.sqrt (a * b) := wrap112_eq_of_lt hs
  have hboot := add_boot initialState 1 2 a b 0 0 3 0 0 (by decide) (by decide)
    (by decide) ha hb (Nat.le_refl 0) rfl rfl hprod
  rw [if_pos h12, if_pos h12, hw] at hboot
  refine ⟨_, _, hboot, ?_⟩
  have hpool1 : (State.mk
      (setPool initialState.pools (min 1 2) (max 1 2)
        ⟨wrap112 a, wrap112 b, Nat.sqrt (a * b)⟩)
      (setLiq initialState.liquidity (min 1 2) (max 1 2) 3
        (Nat.sqrt (a * b)))).pools (min 1 2) (max 1 2)
      = ⟨wrap112 a, wrap112 b, Nat.sqrt (a * b)⟩ := by
    show setPool initialState.pools (min 1 2) (max 1 2)
        ⟨wrap112 a, wrap112 b, Nat.sqrt (a * b)⟩ (min 1 2) (max 1 2) = _
    rw [setPool_same]
  have huser1 : (State.mk
      (setPool initialState.pools (min 1 2) (max 1 2)
        ⟨wrap112 a, wrap112 b, Nat.sqrt (a * b)⟩)
      (setLiq initialState.liquidity (min 1 2) (max 1 2) 3
        (Nat.sqrt (a * b)))).liquidity (min 1 2) (max 1 2) 3
      = Nat.sqrt (a * b) := by
    show setLiq initialState.liquidity (min 1 2) (max 1 2) 3
        (Nat.sqrt (a * b)) (min 1 2) (max 1 2) 3 = _
    rw [setLiq_same]
  have hg0 : Nat.sqrt (a * b) * wrap112 a < U256 :=
    lt_of_lt_of_le (mul_lt_mul'' hs (wrap112_lt a) (Nat.zero_le _) (Nat.zero_le _))
      (by decide)
  have hg1 : Nat.sqrt (a * b) * wrap112 b < U256 :=
    lt_of_lt_of_le (mul_lt_mul'' hs (wrap112_lt b) (Nat.zero_le _) (Nat.zero_le _))
      (by decide)
  have hc0 : Nat.sqrt (a * b) * wrap112 a / Nat.sqrt (a * b) = wrap112 a :=
    Nat.mul_div_cancel_left _ hm
  have hc1 : Nat.sqrt (a * b) * wrap112 b / Nat.sqrt (a * b) = wrap112 b :=
    Nat.mul_div_cancel_left _ hm
  have hrm := remove_forward _ 3 1 2 (Nat.sqrt (a * b)) 0 0 3 0 0
    (wrap112 a) (wrap112 b) (Nat.sqrt (a * b)) (Nat.sqrt (a * b))
    (by decide) (by decide) (by decide) hm (Nat.le_refl 0) hpool1 huser1 hm
    (Nat.le_refl _) hg0 hg1 (Nat.zero_le _) (Nat.zero_le _)
    (le_of_eq hc0) (le_of_eq hc1) (Nat.le_refl _) (le_of_eq hw)
  rw [if_pos h12, if_pos h12, hc0, hc1, Nat.sub_self, Nat.sub_self, Nat.sub_self, hw,
    Nat.sub_self, show wrap112 0 = 0 from by decide] at hrm
  have hmin12 : (min 1 2 : Nat) = 1 := by omega
  have hmax12 : (max 1 2 : Nat) = 2 := by omega
  refine ⟨_, _, wrap112 a, wrap112 b, hrm, wrap112_le a, wrap112_le b, ?_, ?_, ?_⟩
  · rw [hmin12, hmax12]
    simp [setPool]
  · rw [hmin12, hmax12]
    simp [setLiq]
  · intro c d hc hd hcd
    refine ⟨_, _, add_boot _ 1 2 c d 0 0 3 0 0 (by decide) (by decide) (by decide)
      hc hd (Nat.le_refl 0) ?_ ?_ hcd⟩
    · simp [setPool]
    · simp [setLiq]

/-- Witness for C9: the round trip at `(a, b) = (100, 400)`. -/
theorem spec_C9_witness :
    ∃ s₁ tr₁,
      addLiquidityE initialState 1 2 100 400 0 0 3 0 0
        = .ok (s₁, tr₁, 100, 400, Nat.sqrt (100 * 400)) ∧
      ∃ s₂ tr₂ outA outB,
        removeLiquidityE s₁ 3 1 2 (Nat.sqrt (100 * 400)) 0 0 3 0 0
          = .ok (s₂, tr₂, outA, outB) ∧
        outA ≤ 100 ∧ outB ≤ 400 ∧
        s₂.pools 1 2 = ⟨0, 0, 0⟩ ∧ s₂.liquidity 1 2 3 = 0 ∧
        (∀ c d, 0 < c → 0 < d → c * d < U256 →
          ∃ s₃ tr₃, addLiquidityE s₂ 1 2 c d 0 0 3 0 0
            = .ok (s₃, tr₃, c, d, Nat.sqrt (c * d))) :=
  spec_C9 100 400 (by decide) (by decide)
    (by rw [show (100 * 400 : Nat) = 200 * 200 from by norm_num, Nat.sqrt_eq]; decide)
